import Mathlib

/-!
Verification development for the PodSweeper reconciliation core.

The definitions below are a shallow embedding of the Go sources:
  - pkg/game (GameState and its operations, the Store),
  - pkg/grid (generator config, mine-count calculation, Fisher-Yates placement),
  - pkg/spawner (GridSpawner batching and retry),
  - internal/controller (pod-name parsing, the deletion reconciler and its
    three handlers, including the BFS flood-fill).

Machine integers are modelled by Int (no arithmetic here comes close to
64-bit overflow except Atoi, whose int64 range check is modelled
explicitly); Go float64 mine density is modelled by Rat; Kubernetes side
effects are modelled by an explicit world state (persisted game state plus
the set of pod names in the game namespace) and per-pod outcome oracles.
-/

namespace PodSweeper

/-- Game status, from pkg/game: "playing", "won", "lost". -/
inductive GameStatus where
  | playing
  | won
  | lost
deriving DecidableEq, Repr

/-- A grid coordinate, from pkg/game (struct Coordinate, X Y int). -/
structure Coordinate where
  x : Int
  y : Int
deriving DecidableEq, Repr

/-- The game state document, from pkg/game (struct GameState).
The two time.Time fields are abstracted: StartedAt is dropped (wall-clock,
never read by the core logic) and EndedAt is modelled by the boolean
endedAtSet (zero value versus written by SetWon/SetLost). -/
structure GameState where
  size : Int
  seed : Int
  level : Int
  status : GameStatus
  mineMap : List (List Bool)
  revealed : List (List Bool)
  hintCells : List Coordinate
  mineCount : Int
  clicks : Int
  endedAtSet : Bool
deriving DecidableEq, Repr

/-- Read a cell of a 2D bool matrix (Go m[x][y]).  The Go code only indexes
after an IsValidCoordinate guard, so the out-of-range default false is never
observable on well-formed states. -/
def mget (m : List (List Bool)) (x y : Int) : Bool :=
  (m.getD x.toNat []).getD y.toNat false

/-- Write a cell of a 2D bool matrix (Go m[x][y] = b), same guard remark. -/
def mset (m : List (List Bool)) (x y : Int) (b : Bool) : List (List Bool) :=
  m.set x.toNat ((m.getD x.toNat []).set y.toNat b)

/-- NewGameState: size x size matrices of false, playing status, zero counters. -/
def newGameState (size seed : Int) : GameState :=
  { size := size
    seed := seed
    level := 0
    status := .playing
    mineMap := List.replicate size.toNat (List.replicate size.toNat false)
    revealed := List.replicate size.toNat (List.replicate size.toNat false)
    hintCells := []
    mineCount := 0
    clicks := 0
    endedAtSet := false }

/-- IsValidCoordinate: x >= 0 && x < size && y >= 0 && y < size. -/
def GameState.isValidCoordinate (g : GameState) (x y : Int) : Bool :=
  decide (0 ≤ x) && decide (x < g.size) && decide (0 ≤ y) && decide (y < g.size)

/-- IsMine: false out of bounds, else MineMap[x][y]. -/
def GameState.isMine (g : GameState) (x y : Int) : Bool :=
  if g.isValidCoordinate x y then mget g.mineMap x y else false

/-- IsRevealed: false out of bounds, else Revealed[x][y]. -/
def GameState.isRevealed (g : GameState) (x y : Int) : Bool :=
  if g.isValidCoordinate x y then mget g.revealed x y else false

/-- Reveal: no-op returning false when out of bounds or already revealed,
else set Revealed[x][y], increment Clicks, return true. -/
def GameState.reveal (g : GameState) (x y : Int) : GameState × Bool :=
  if !(g.isValidCoordinate x y) || mget g.revealed x y then (g, false)
  else ({ g with revealed := mset g.revealed x y true, clicks := g.clicks + 1 }, true)

/-- SetMine: false when out of bounds; otherwise place the mine, incrementing
MineCount only when the cell was not already a mine, and return true. -/
def GameState.setMine (g : GameState) (x y : Int) : GameState × Bool :=
  if !(g.isValidCoordinate x y) then (g, false)
  else if mget g.mineMap x y then (g, true)
  else ({ g with mineMap := mset g.mineMap x y true, mineCount := g.mineCount + 1 }, true)

/-- The eight neighbor offsets in the order of the Go double loop
(dx = -1..1 outer, dy = -1..1 inner, skipping (0,0)). -/
def neighborOffsets : List (Int × Int) :=
  [(-1, -1), (-1, 0), (-1, 1), (0, -1), (0, 1), (1, -1), (1, 0), (1, 1)]

/-- AdjacentMines: the number of the eight neighbors for which IsMine holds. -/
def GameState.adjacentMines (g : GameState) (x y : Int) : Nat :=
  (neighborOffsets.filter (fun d => g.isMine (x + d.1) (y + d.2))).length

/-- GetNeighbors: the in-bounds neighbors, in offset order. -/
def GameState.getNeighbors (g : GameState) (x y : Int) : List Coordinate :=
  (neighborOffsets.filter (fun d => g.isValidCoordinate (x + d.1) (y + d.2))).map
    (fun d => ⟨x + d.1, y + d.2⟩)

/-- The coordinate of a pair of loop indices. -/
def natPairCoord (X Y : Nat) : Coordinate :=
  ⟨(X : Int), (Y : Int)⟩

/-- All grid coordinates in the order of the Go double loop (x outer, y inner),
as used by UnrevealedSafeCells and SpawnGrid. -/
def gridCoords (size : Int) : List Coordinate :=
  (List.range size.toNat).flatMap (fun X =>
    (List.range size.toNat).map (fun Y => natPairCoord X Y))

/-- UnrevealedSafeCells: cells that are neither mines nor revealed. -/
def GameState.unrevealedSafeCells (g : GameState) : Nat :=
  ((gridCoords g.size).filter
    (fun c => !(mget g.mineMap c.x c.y) && !(mget g.revealed c.x c.y))).length

/-- CheckVictory: all non-mine cells revealed. -/
def GameState.checkVictory (g : GameState) : Bool :=
  g.unrevealedSafeCells == 0

/-- SetWon: status won, EndedAt recorded. -/
def GameState.setWon (g : GameState) : GameState :=
  { g with status := .won, endedAtSet := true }

/-- SetLost: status lost, EndedAt recorded. -/
def GameState.setLost (g : GameState) : GameState :=
  { g with status := .lost, endedAtSet := true }

/-- AddHintCell: append the coordinate to HintCells. -/
def GameState.addHintCell (g : GameState) (x y : Int) : GameState :=
  { g with hintCells := g.hintCells ++ [⟨x, y⟩] }

/-- Number of true entries in one matrix row. -/
def rowTrue (r : List Bool) : Nat :=
  r.count true

/-- Number of true entries of a matrix: the live count the MineCount field
must track. -/
def countTrue (m : List (List Bool)) : Nat :=
  (m.map rowTrue).sum

/-- Well-formedness of the two size x size matrices (the Go slices built by
NewGameState; all matrix indexing in the source assumes it). -/
def WFMatrices (g : GameState) : Prop :=
  g.mineMap.length = g.size.toNat ∧ g.revealed.length = g.size.toNat ∧
  (∀ r ∈ g.mineMap, r.length = g.size.toNat) ∧
  (∀ r ∈ g.revealed, r.length = g.size.toNat)

/-! Pod-name printing and parsing (internal/controller and Coordinate). -/

/-- An ASCII decimal digit, as matched by the regex class backslash-d. -/
def isDigitChar (c : Char) : Bool :=
  decide ('0' ≤ c) && decide (c ≤ '9')

/-- The decimal digit character for d in 0..9 (fmt %d building block). -/
def digitChar (d : Nat) : Char :=
  match d with
  | 0 => '0' | 1 => '1' | 2 => '2' | 3 => '3' | 4 => '4'
  | 5 => '5' | 6 => '6' | 7 => '7' | 8 => '8' | _ => '9'

/-- Decimal printing loop with explicit fuel (the value itself always
suffices), structurally recursive so that concrete names evaluate. -/
def natDigitsGo : Nat → Nat → List Char → List Char
  | 0, n, acc => digitChar n :: acc
  | fuel + 1, n, acc =>
    if n < 10 then digitChar n :: acc
    else natDigitsGo fuel (n / 10) (digitChar (n % 10) :: acc)

/-- Decimal digit list of a natural number (fmt %d for a non-negative int). -/
def natDigits (n : Nat) : List Char :=
  natDigitsGo n n []

/-- fmt %d for a Go int. -/
def intDecimal (n : Int) : List Char :=
  if n < 0 then '-' :: natDigits (-n).toNat else natDigits n.toNat

/-- Coordinate.PodName: "pod-x-y". -/
def Coordinate.podName (c : Coordinate) : String :=
  ⟨('p' :: 'o' :: 'd' :: '-' :: intDecimal c.x) ++ '-' :: intDecimal c.y⟩

/-- Coordinate.HintPodName: "hint-x-y". -/
def Coordinate.hintPodName (c : Coordinate) : String :=
  ⟨('h' :: 'i' :: 'n' :: 't' :: '-' :: intDecimal c.x) ++ '-' :: intDecimal c.y⟩

/-- Numeric value of a digit list (most significant first). -/
def digitsToNat (ds : List Char) : Nat :=
  ds.foldl (fun acc c => acc * 10 + (c.toNat - 48)) 0

/-- The largest Go int64, the overflow cutoff of strconv.Atoi on a 64-bit int. -/
def maxInt64 : Nat := 9223372036854775807

/-- strconv.Atoi restricted to an all-digit input (what a regex digit group
yields): the value when it fits a 64-bit int, failure on overflow. -/
def atoiDigits (ds : List Char) : Option Int :=
  if ds.isEmpty then none
  else if digitsToNat ds ≤ maxInt64 then some (digitsToNat ds : Int) else none

/-- Match a literal character sequence at the front, returning the remainder. -/
def matchLit : List Char → List Char → Option (List Char)
  | [], s => some s
  | _ :: _, [] => none
  | p :: ps, c :: cs => if c = p then matchLit ps cs else none

/-- The two digit groups of a name matching lit ++ (backslash-d+) ++ "-" ++
(backslash-d+) anchored at both ends; none when the shape does not match.
Because the digit class excludes the dash, this deterministic maximal-munch
split is exactly the anchored regex of PodNameRegex / HintPodNameRegex. -/
def splitNameDigits (lit : List Char) (name : String) : Option (List Char × List Char) :=
  match matchLit lit name.toList with
  | none => none
  | some rest =>
    let d1 := rest.takeWhile isDigitChar
    match rest.dropWhile isDigitChar with
    | c :: r2 =>
      if c = '-' then
        let d2 := r2.takeWhile isDigitChar
        if d1.isEmpty || d2.isEmpty then none
        else if (r2.dropWhile isDigitChar).isEmpty then some (d1, d2) else none
      else none
    | [] => none

/-- The literal "pod-" of PodNameRegex. -/
def podLit : List Char := ['p', 'o', 'd', '-']

/-- The literal "hint-" of HintPodNameRegex. -/
def hintLit : List Char := ['h', 'i', 'n', 't', '-']

/-- IsPodName: the name matches the anchored pod regex. -/
def isPodName (name : String) : Bool :=
  (splitNameDigits podLit name).isSome

/-- IsHintPodName: the name matches the anchored hint regex. -/
def isHintPodName (name : String) : Bool :=
  (splitNameDigits hintLit name).isSome

/-- ParsePodName: regex submatches then Atoi on each digit group. -/
def parsePodName (name : String) : Option Coordinate :=
  match splitNameDigits podLit name with
  | none => none
  | some (d1, d2) =>
    match atoiDigits d1, atoiDigits d2 with
    | some x, some y => some ⟨x, y⟩
    | _, _ => none

/-- ParseHintPodName: regex submatches then Atoi on each digit group. -/
def parseHintPodName (name : String) : Option Coordinate :=
  match splitNameDigits hintLit name with
  | none => none
  | some (d1, d2) =>
    match atoiDigits d1, atoiDigits d2 with
    | some x, some y => some ⟨x, y⟩
    | _, _ => none

/-- The anchored-regex shape of the spec's words: the identifier is the
literal, one non-empty digit group, a dash, a second non-empty digit group,
and nothing else. -/
def RegexShape (lit : List Char) (name : String) (d1 d2 : List Char) : Prop :=
  name.toList = lit ++ d1 ++ '-' :: d2 ∧ d1 ≠ [] ∧ d2 ≠ [] ∧
  (∀ ch ∈ d1, isDigitChar ch = true) ∧ (∀ ch ∈ d2, isDigitChar ch = true)

/-! The BFS flood-fill (GameHandlers.bfsPropagation). -/

/-- The inner neighbor loop of bfsPropagation: append each in-order neighbor
that is not yet visited, not revealed and not a mine to both the visited set
and the queue (mark at enqueue time). -/
def enqueueNeighbors (g : GameState) : List Coordinate → List Coordinate → List Coordinate →
    List Coordinate × List Coordinate
  | [], v, q => (v, q)
  | n :: ns, v, q =>
    if !(decide (n ∈ v)) && !(g.isRevealed n.x n.y) && !(g.isMine n.x n.y) then
      enqueueNeighbors g ns (v ++ [n]) (q ++ [n])
    else
      enqueueNeighbors g ns v q

/-- The while loop of bfsPropagation with an explicit fuel bound; none means
the fuel ran out (shown below never to happen for the fuel bfsFuel). -/
def bfsLoop (g : GameState) : Nat → List Coordinate → List Coordinate →
    List Coordinate → List Coordinate → Option (List Coordinate × List Coordinate)
  | 0, _, _, _, _ => none
  | fuel + 1, visited, queue, e, b =>
    match queue with
    | [] => some (e, b)
    | current :: rest =>
      if g.adjacentMines current.x current.y = 0 then
        let vq := enqueueNeighbors g (g.getNeighbors current.x current.y) visited rest
        bfsLoop g fuel vq.1 vq.2 (e ++ [current]) b
      else
        bfsLoop g fuel visited rest e (b ++ [current])

/-- Fuel that always suffices: the grid size plus the initial queue length
plus one (the loop measure, unvisited valid cells plus queue length, starts
below it and drops by one per iteration). -/
def bfsFuel (g : GameState) : Nat :=
  (gridCoords g.size).length + 2

/-- bfsPropagation: visited and queue seeded with the start coordinate;
returns the interior (empty) and boundary lists. -/
def bfsPropagation (g : GameState) (start : Coordinate) : List Coordinate × List Coordinate :=
  (bfsLoop g (bfsFuel g) [start] [start] [] []).getD ([], [])

/-- The loop measure: valid cells not yet visited, plus the queue length. -/
def unvisitedCard (g : GameState) (v : List Coordinate) : Nat :=
  ((gridCoords g.size).toFinset \ v.toFinset).card

/-! The reconciler and its handlers over an explicit world state. -/

/-- The observable world the controller acts on: the persisted game state
(the Store; MemoryStore semantics, clone-on-load and clone-on-save being
identities in a pure model) and the set of pod names in the game namespace. -/
structure World where
  store : Option GameState
  pods : List String
deriving DecidableEq, Repr

/-- Store.Save: whole-document replace. -/
def saveState (w : World) (g : GameState) : World :=
  { w with store := some g }

/-- client.Create of a pod: AlreadyExists is an error for the handlers that
propagate it. -/
def createPod (w : World) (name : String) : Except Unit World :=
  if name ∈ w.pods then .error () else .ok { w with pods := w.pods ++ [name] }

/-- client.Create of a pod where the caller ignores the error (best-effort
paths: hint pods during propagation). -/
def createPodBE (w : World) (name : String) : World :=
  if name ∈ w.pods then w else { w with pods := w.pods ++ [name] }

/-- deletePod: delete pod-x-y, ignoring NotFound. -/
def deletePodAt (w : World) (c : Coordinate) : World :=
  { w with pods := w.pods.filter (fun n => n ≠ c.podName) }

/-- wipeGamePods with a per-pod deletion-success oracle delOk: every pod whose
name matches the pod or hint pattern is attempted; a failed deletion is logged
and the loop continues; the call itself reports success. -/
def wipeGamePods (delOk : String → Bool) (w : World) : World :=
  { w with pods := w.pods.filter (fun n => !((isPodName n || isHintPodName n) && delOk n)) }

/-- handleVictory: SetWon, save, spawn the "victory" pod. -/
def handleVictory (w : World) (g : GameState) : Except Unit World :=
  let g1 := g.setWon
  createPod (saveState w g1) "victory"

/-- HandleMineHit: reveal, SetLost, save, wipe all game pods (best-effort per
pod), spawn the "explosion" pod. -/
def handleMineHit (delOk : String → Bool) (w : World) (g : GameState) (c : Coordinate) :
    Except Unit World :=
  let g1 := (g.reveal c.x c.y).1
  let g2 := g1.setLost
  let w1 := saveState w g2
  let w2 := wipeGamePods delOk w1
  createPod w2 "explosion"

/-- HandleHintCell: reveal, AddHintCell, spawn hint-x-y (an error aborts the
event before saving), then victory check or save. -/
def handleHintCell (w : World) (g : GameState) (c : Coordinate) : Except Unit World :=
  let g1 := (g.reveal c.x c.y).1
  let g2 := g1.addHintCell c.x c.y
  match createPod w c.hintPodName with
  | .error e => .error e
  | .ok w1 =>
    if g2.checkVictory then handleVictory w1 g2
    else .ok (saveState w1 g2)

/-- The interior loop of HandleEmptyCell: state.Reveal on every found cell. -/
def revealAll (l : List Coordinate) (g : GameState) : GameState :=
  l.foldl (fun s cc => (s.reveal cc.x cc.y).1) g

/-- The interior loop of HandleEmptyCell on the cluster: delete each cell pod. -/
def deleteAll (l : List Coordinate) (w : World) : World :=
  l.foldl (fun ww cc => deletePodAt ww cc) w

/-- The per-boundary-cell body of HandleEmptyCell: reveal, record the hint
cell, delete the cell pod, spawn the hint pod (creation errors logged, not
fatal; the hint-value annotation read before the reveal is not part of the
pod-name world model). -/
def boundaryStep (p : GameState × World) (cc : Coordinate) : GameState × World :=
  let s1 := (p.1.reveal cc.x cc.y).1
  let s2 := s1.addHintCell cc.x cc.y
  let ww1 := deletePodAt p.2 cc
  (s2, createPodBE ww1 cc.hintPodName)

/-- The boundary loop of HandleEmptyCell. -/
def processBoundary (l : List Coordinate) (p : GameState × World) : GameState × World :=
  l.foldl boundaryStep p

/-- HandleEmptyCell: BFS, reveal and delete the interior cells, then the
boundary loop, then victory check or save. -/
def handleEmptyCell (w : World) (g : GameState) (c : Coordinate) : Except Unit World :=
  let eb := bfsPropagation g c
  let gw := processBoundary eb.2 (revealAll eb.1 g, deleteAll eb.1 w)
  if gw.1.checkVictory then handleVictory gw.2 gw.1
  else .ok (saveState gw.2 gw.1)

/-- handlePodDeletion: load the state (absent means no active game), ignore
terminal games and already-revealed cells, otherwise dispatch on mine /
positive adjacency / zero adjacency. -/
def handlePodDeletion (delOk : String → Bool) (w : World) (c : Coordinate) :
    Except Unit World :=
  match w.store with
  | none => .ok w
  | some s =>
    if s.status ≠ .playing then .ok w
    else if s.isRevealed c.x c.y then .ok w
    else if s.isMine c.x c.y then handleMineHit delOk w s c
    else if 0 < s.adjacentMines c.x c.y then handleHintCell w s c
    else handleEmptyCell w s c

/-- The Reconcile name gate for a completed deletion: names that do not match
the pod pattern are not game events (the namespace filter and the
pod-still-exists checks of Reconcile are upstream of this model). -/
def reconcileEvent (delOk : String → Bool) (w : World) (name : String) :
    Except Unit World :=
  match parsePodName name with
  | none => .ok w
  | some c => handlePodDeletion delOk w c

/-- What a kubernetes Get of the state Secret can find, as seen by
SecretStore.Load: absent, an I/O error, or a Secret whose "state" key is
missing, malformed JSON, or a game state. -/
inductive SecretFetch where
  | notFound
  | fetchErr
  | found (stateKey : Option (Option GameState))

/-- SecretStore.Load: NotFound is the absent value (nil, nil), a Get error,
a missing "state" key and malformed JSON are errors. -/
def secretStoreLoad : SecretFetch → Except Unit (Option GameState)
  | .notFound => .ok none
  | .fetchErr => .error ()
  | .found none => .error ()
  | .found (some none) => .error ()
  | .found (some (some s)) => .ok (some s)

/-! The grid generator (pkg/grid). -/

/-- grid.Config.  MineDensity is a Go float64 modelled exactly by a rational;
all densities appearing in the analysed code and tests are exactly
representable decisions of the same branch structure. -/
structure GenConfig where
  size : Int
  seed : Int
  mineDensity : Rat
  minMineCount : Int
  maxMineCount : Int
deriving DecidableEq, Repr

/-- Config.Validate returns nil: size in [1,100], density in [0.05,0.50],
both mine-count bounds non-negative, and min <= max when max is set. -/
def GenConfig.validateOk (c : GenConfig) : Bool :=
  decide (1 ≤ c.size) && decide (c.size ≤ 100) &&
  decide ((1 : Rat) / 20 ≤ c.mineDensity) && decide (c.mineDensity ≤ (1 : Rat) / 2) &&
  decide (0 ≤ c.minMineCount) && decide (0 ≤ c.maxMineCount) &&
  (!(decide (0 < c.maxMineCount)) || decide (c.minMineCount ≤ c.maxMineCount))

/-- Go int(q) conversion of a float value: truncation toward zero. -/
def goTrunc (q : Rat) : Int :=
  if 0 ≤ q then ⌊q⌋ else -⌊-q⌋

/-- Config.CalculateMineCount: truncate size^2 * density, then enforce the
minimum, then the maximum when set, then the total-cells-minus-one ceiling. -/
def GenConfig.calculateMineCount (c : GenConfig) : Int :=
  let totalCells := c.size * c.size
  let m0 := goTrunc ((totalCells : Rat) * c.mineDensity)
  let m1 := if m0 < c.minMineCount then c.minMineCount else m0
  let m2 := if 0 < c.maxMineCount ∧ c.maxMineCount < m1 then c.maxMineCount else m1
  if totalCells - 1 < m2 then totalCells - 1 else m2

/-- Following the spec's words, for comparison with the source's
calculateMineCount: round(size^2 * density) clamped to
[minMineCount, min(maxMineCount or infinity, size^2 - 1)]. -/
def calculateMineCountSpec (c : GenConfig) : Int :=
  let totalCells := c.size * c.size
  let r := round ((totalCells : Rat) * c.mineDensity)
  let hi := if 0 < c.maxMineCount then min c.maxMineCount (totalCells - 1) else totalCells - 1
  max c.minMineCount (min r hi)

/-- The state of the external math/rand PRNG.  The repository's code relies
only on rand.New(rand.NewSource(seed)) being a deterministic pure function of
the seed; the stream itself is modelled by a 64-bit linear congruential
generator. -/
structure Rng where
  state : Int
deriving DecidableEq, Repr

/-- rand.New(rand.NewSource(seed)). -/
def mkRng (seed : Int) : Rng :=
  ⟨seed % 18446744073709551616⟩

/-- rng.Intn(bound) for a positive bound: a value in [0, bound) and the
advanced stream. -/
def Rng.intn (r : Rng) (bound : Int) : Int × Rng :=
  let s := (r.state * 6364136223846793005 + 1442695040888963407) % 18446744073709551616
  (if bound ≤ 0 then 0 else s % bound, ⟨s⟩)

/-- grid.Generator: the validated config and the generator's own mutable
stream (used by Generate, not by GenerateWithSeed). -/
structure Generator where
  config : GenConfig
  rng : Rng
deriving DecidableEq, Repr

/-- Swap two positions of the linear cell-index slice. -/
def listSwap (l : List Int) (i j : Nat) : List Int :=
  let vi := l.getD i 0
  let vj := l.getD j 0
  (l.set i vj).set j vi

/-- The Fisher-Yates loop: for i from the last index down to 1, draw
j := Intn(i+1) and swap positions i and j.  The argument is the current i. -/
def fyLoop (r : Rng) (l : List Int) : Nat → List Int × Rng
  | 0 => (l, r)
  | k + 1 =>
    let jr := r.intn ((k : Int) + 2)
    fyLoop jr.2 (listSwap l (k + 1) jr.1.toNat) k

/-- placeMinesWithRNG: shuffle the linear indices 0..size^2-1 and set a mine
at each of the first CalculateMineCount positions, decoded as
(pos / size, pos mod size); both operands are non-negative so Go and Lean
division and remainder agree. -/
def placeMinesWithRNG (cfg : GenConfig) (state : GameState) (rng : Rng) : GameState :=
  let mineCount := cfg.calculateMineCount
  let totalCells := cfg.size * cfg.size
  let positions := (List.range totalCells.toNat).map (fun i => (i : Int))
  let shuffled := (fyLoop rng positions (positions.length - 1)).1
  (List.range mineCount.toNat).foldl
    (fun s i =>
      let pos := shuffled.getD i 0
      (s.setMine (pos / cfg.size) (pos % cfg.size)).1) state

/-- Generator.GenerateWithSeed: a fresh RNG from the given seed (the
generator's own stream is not consulted), a fresh NewGameState, then
placeMinesWithRNG. -/
def Generator.generateWithSeed (g : Generator) (seed : Int) : GameState :=
  let rng := mkRng seed
  let state := newGameState g.config.size seed
  placeMinesWithRNG g.config state rng

/-! The grid spawner (pkg/spawner). -/

/-- Outcome of one client.Create attempt for one pod. -/
inductive CreateOutcome where
  | created
  | alreadyExists
  | failed
deriving DecidableEq, Repr

/-- GridSpawner after NewGridSpawner normalisation: batch size and retry
count are positive (non-positive config values fall back to the defaults 10
and 3).  The namespace, image and retry delay are orthogonal to the verified
behaviour and omitted. -/
structure GridSpawner where
  batchSize : Nat
  retryAttempts : Nat
deriving DecidableEq, Repr

/-- NewGridSpawner's defaulting of the two fields modelled here. -/
def newGridSpawner (batchSize retryAttempts : Int) : GridSpawner :=
  { batchSize := if batchSize ≤ 0 then 10 else batchSize.toNat
    retryAttempts := if retryAttempts ≤ 0 then 3 else retryAttempts.toNat }

/-- The attempt loop of createPodWithRetry against an outcome oracle env
(coordinate and zero-based attempt number): success on created or
alreadyExists, move to the next attempt on failure, give up when the
remaining attempt budget (first argument) is exhausted. -/
def createAttempts (env : Coordinate → Nat → CreateOutcome) (c : Coordinate) :
    Nat → Nat → Bool
  | 0, _ => false
  | k + 1, attempt =>
    match env c attempt with
    | .failed => createAttempts env c k (attempt + 1)
    | _ => true

/-- createPodWithRetry: up to retryAttempts attempts starting at attempt 0. -/
def createPodWithRetry (s : GridSpawner) (env : Coordinate → Nat → CreateOutcome)
    (c : Coordinate) : Bool :=
  createAttempts env c s.retryAttempts 0

/-- spawner.SpawnResult (duration omitted). -/
structure SpawnResult where
  totalPods : Int
  createdPods : Int
  failedPods : Int
  failedCoords : List Coordinate
deriving DecidableEq, Repr

/-- The per-coordinate body of the batch loop. -/
def processCoord (s : GridSpawner) (env : Coordinate → Nat → CreateOutcome)
    (r : SpawnResult) (c : Coordinate) : SpawnResult :=
  if createPodWithRetry s env c then { r with createdPods := r.createdPods + 1 }
  else { r with failedPods := r.failedPods + 1, failedCoords := r.failedCoords ++ [c] }

/-- Successive slices coords[i:i+batchSize] of the coordinate list, with the
list length as explicit fuel (the Go loop advances i by batchSize, positive
after NewGridSpawner). -/
def chunkAux (bs : Nat) : Nat → List Coordinate → List (List Coordinate)
  | 0, _ => []
  | _, [] => []
  | fuel + 1, a :: l => ((a :: l).take bs) :: chunkAux bs fuel ((a :: l).drop bs)

/-- The batch partition of the coordinate list. -/
def batches (bs : Nat) (l : List Coordinate) : List (List Coordinate) :=
  chunkAux bs l.length l

/-- SpawnGrid: all size^2 coordinates in row-major order, processed batch by
batch with per-coordinate retry; the boolean is whether the call returns an
error (failedPods > 0, after all coordinates were attempted). -/
def spawnGrid (s : GridSpawner) (env : Coordinate → Nat → CreateOutcome)
    (state : GameState) : SpawnResult × Bool :=
  let coords := gridCoords state.size
  let init : SpawnResult :=
    { totalPods := state.size * state.size, createdPods := 0, failedPods := 0, failedCoords := [] }
  let r := (batches s.batchSize coords).foldl
    (fun acc batch => batch.foldl (processCoord s env) acc) init
  (r, decide (0 < r.failedPods))

/-! Helper lemmas. -/

theorem isValidCoordinate_iff (g : GameState) (x y : Int) :
    g.isValidCoordinate x y = true ↔ 0 ≤ x ∧ x < g.size ∧ 0 ≤ y ∧ y < g.size := by
  simp [GameState.isValidCoordinate, Bool.and_eq_true, decide_eq_true_eq, and_assoc]

theorem validateOk_iff (c : GenConfig) :
    c.validateOk = true ↔
      1 ≤ c.size ∧ c.size ≤ 100 ∧ (1 : Rat) / 20 ≤ c.mineDensity ∧
      c.mineDensity ≤ (1 : Rat) / 2 ∧ 0 ≤ c.minMineCount ∧ 0 ≤ c.maxMineCount ∧
      (0 < c.maxMineCount → c.minMineCount ≤ c.maxMineCount) := by
  simp only [GenConfig.validateOk, Bool.and_eq_true, Bool.or_eq_true, Bool.not_eq_true',
    decide_eq_true_eq, decide_eq_false_iff_not, and_assoc]
  constructor
  · rintro ⟨h1, h2, h3, h4, h5, h6, h7⟩
    refine ⟨h1, h2, h3, h4, h5, h6, fun hpos => ?_⟩
    rcases h7 with h | h
    · exact absurd hpos h
    · exact h
  · rintro ⟨h1, h2, h3, h4, h5, h6, h7⟩
    refine ⟨h1, h2, h3, h4, h5, h6, ?_⟩
    by_cases hpos : 0 < c.maxMineCount
    · exact Or.inr (h7 hpos)
    · exact Or.inl hpos

theorem getD_set_self {α : Type} (l : List α) (i : Nat) (a d : α) (h : i < l.length) :
    (l.set i a).getD i d = a := by
  simp [List.getD, List.getElem?_set_self', h]

theorem getD_set_ne {α : Type} (l : List α) (i j : Nat) (a d : α) (h : i ≠ j) :
    (l.set i a).getD j d = l.getD j d := by
  simp [List.getD, List.getElem?_set_ne, h]

theorem rowSetTrue_mono (r : List Bool) (j j' : Nat) (h : r.getD j' false = true) :
    (r.set j true).getD j' false = true := by
  by_cases hjj : j = j'
  · subst hjj
    by_cases hl : j < r.length
    · rw [getD_set_self r j true false hl]
    · rw [List.set_eq_of_length_le (Nat.le_of_not_lt hl)]
      exact h
  · rw [getD_set_ne r j j' true false hjj]
    exact h

theorem mget_mset_self (m : List (List Bool)) (x y : Int) (b : Bool)
    (hx : x.toNat < m.length) (hy : y.toNat < (m.getD x.toNat []).length) :
    mget (mset m x y b) x y = b := by
  unfold mget mset
  rw [getD_set_self m x.toNat _ [] hx]
  exact getD_set_self _ y.toNat b false hy

theorem mget_mset_true_mono (m : List (List Bool)) (x y a b : Int)
    (h : mget m a b = true) : mget (mset m x y true) a b = true := by
  unfold mget mset
  unfold mget at h
  by_cases hii : x.toNat = a.toNat
  · rw [← hii] at h ⊢
    by_cases hl : x.toNat < m.length
    · rw [getD_set_self m x.toNat _ [] hl]
      exact rowSetTrue_mono _ y.toNat b.toNat h
    · rw [List.set_eq_of_length_le (Nat.le_of_not_lt hl)]
      exact h
  · rw [getD_set_ne m x.toNat a.toNat _ [] hii]
    exact h

theorem length_mset (m : List (List Bool)) (x y : Int) (b : Bool) :
    (mset m x y b).length = m.length := by
  simp [mset]

theorem rows_mset (m : List (List Bool)) (x y : Int) (b : Bool) (n : Nat)
    (hrows : ∀ r ∈ m, r.length = n) : ∀ r ∈ mset m x y b, r.length = n := by
  intro r hr
  by_cases hl : x.toNat < m.length
  · rcases List.mem_or_eq_of_mem_set hr with hm | he
    · exact hrows r hm
    · rw [he, List.length_set]
      have : m.getD x.toNat [] ∈ m := by
        rw [List.getD_eq_getElem m [] hl]
        exact List.getElem_mem hl
      exact hrows _ this
  · unfold mset at hr
    rw [List.set_eq_of_length_le (Nat.le_of_not_lt hl)] at hr
    exact hrows r hr

theorem rowTrue_set_true (r : List Bool) (j : Nat) (hj : j < r.length)
    (h : r.getD j false = false) : rowTrue (r.set j true) = rowTrue r + 1 := by
  induction r generalizing j with
  | nil => simp at hj
  | cons hd tl ih =>
    cases j with
    | zero =>
      have : hd = false := by simpa [List.getD] using h
      subst this
      simp [rowTrue, List.count_cons]
    | succ k =>
      have hk : k < tl.length := by simpa using hj
      have hh : tl.getD k false = false := by simpa [List.getD] using h
      have := ih k hk hh
      simp only [List.set_cons_succ, rowTrue, List.count_cons] at this ⊢
      omega

theorem countTrue_set (m : List (List Bool)) (i : Nat) (r' : List Bool)
    (hi : i < m.length) :
    countTrue (m.set i r') + rowTrue (m.getD i []) = countTrue m + rowTrue r' := by
  induction m generalizing i with
  | nil => simp at hi
  | cons hd tl ih =>
    cases i with
    | zero => simp [countTrue, List.getD]; omega
    | succ k =>
      have hk : k < tl.length := by simpa using hi
      have := ih k hk
      simp only [List.set_cons_succ, List.getD_cons_succ, countTrue, List.map_cons,
        List.sum_cons] at this ⊢
      omega

theorem countTrue_mset_true (m : List (List Bool)) (x y : Int)
    (hx : x.toNat < m.length) (hy : y.toNat < (m.getD x.toNat []).length)
    (h : mget m x y = false) : countTrue (mset m x y true) = countTrue m + 1 := by
  have hrow : rowTrue ((m.getD x.toNat []).set y.toNat true) =
      rowTrue (m.getD x.toNat []) + 1 :=
    rowTrue_set_true _ y.toNat hy h
  have hset := countTrue_set m x.toNat ((m.getD x.toNat []).set y.toNat true) hx
  unfold mset
  omega

/-! C4: mine-count calculation. -/

/-- C4 counterexample: the valid config size 5, density 0.10, no explicit
bounds.  25 * 0.10 = 2.5; the code truncates to 2 while the claimed
round-then-clamp formula yields 3. -/
theorem calculateMineCount_round_cex :
    (GenConfig.mk 5 0 (1 / 10) 0 0).validateOk = true ∧
    (GenConfig.mk 5 0 (1 / 10) 0 0).calculateMineCount = 2 ∧
    calculateMineCountSpec (GenConfig.mk 5 0 (1 / 10) 0 0) = 3 ∧
    (GenConfig.mk 5 0 (1 / 10) 0 0).calculateMineCount ≠
      calculateMineCountSpec (GenConfig.mk 5 0 (1 / 10) 0 0) := by
  have h1 : (GenConfig.mk 5 0 (1 / 10) 0 0).calculateMineCount = 2 := by
    unfold GenConfig.calculateMineCount goTrunc
    norm_num
  have h2 : calculateMineCountSpec (GenConfig.mk 5 0 (1 / 10) 0 0) = 3 := by
    unfold calculateMineCountSpec
    norm_num [round_eq]
  refine ⟨?_, h1, h2, by rw [h1, h2]; decide⟩
  simp only [GenConfig.validateOk]
  norm_num

/-- C4 amended: for every valid generator config the computed mine count is
the truncation (not rounding) of size^2 * density, clamped by the minimum,
then the maximum when set, then the size^2 - 1 ceiling; consequently it lies
within [min(minMineCount, size^2 - 1), min(maxMineCount or size^2 - 1,
size^2 - 1)], and at least one safe cell always remains. -/
theorem calculateMineCount_bounds (c : GenConfig) (h : c.validateOk = true) :
    min c.minMineCount (c.size * c.size - 1) ≤ c.calculateMineCount ∧
    c.calculateMineCount ≤
      (if 0 < c.maxMineCount then min c.maxMineCount (c.size * c.size - 1)
       else c.size * c.size - 1) ∧
    c.calculateMineCount ≤ c.size * c.size - 1 ∧
    1 ≤ c.size * c.size - c.calculateMineCount := by
  rcases (validateOk_iff c).mp h with ⟨-, -, -, -, -, -, hminmax⟩
  unfold GenConfig.calculateMineCount
  dsimp only
  set m0 := goTrunc (((c.size * c.size : Int) : Rat) * c.mineDensity) with hm0
  clear hm0
  split_ifs <;> omega

/-- Witness for C4 at the default 10 x 10, density 0.15, minimum 1 config. -/
theorem calculateMineCount_bounds_witness :
    (GenConfig.mk 10 0 (15 / 100) 1 0).validateOk = true ∧
    min 1 99 ≤ (GenConfig.mk 10 0 (15 / 100) 1 0).calculateMineCount ∧
    (GenConfig.mk 10 0 (15 / 100) 1 0).calculateMineCount ≤ 99 := by
  have h : (GenConfig.mk 10 0 (15 / 100) 1 0).validateOk = true := by
    simp only [GenConfig.validateOk]
    norm_num
  have hb := calculateMineCount_bounds (GenConfig.mk 10 0 (15 / 100) 1 0) h
  exact ⟨h, by simpa using hb.1, by simpa using hb.2.2.1⟩

theorem valid_bounds (g : GameState) (x y : Int) (hv : g.isValidCoordinate x y = true)
    (hwf : WFMatrices g) :
    x.toNat < g.mineMap.length ∧ y.toNat < (g.mineMap.getD x.toNat []).length ∧
    x.toNat < g.revealed.length ∧ y.toNat < (g.revealed.getD x.toNat []).length := by
  rcases (isValidCoordinate_iff g x y).mp hv with ⟨hx0, hxs, hy0, hys⟩
  rcases hwf with ⟨hm, hr, hmr, hrr⟩
  have hxm : x.toNat < g.mineMap.length := by omega
  have hxr : x.toNat < g.revealed.length := by omega
  have hrow1 : (g.mineMap.getD x.toNat []).length = g.size.toNat := by
    rw [List.getD_eq_getElem g.mineMap [] hxm]
    exact hmr _ (List.getElem_mem hxm)
  have hrow2 : (g.revealed.getD x.toNat []).length = g.size.toNat := by
    rw [List.getD_eq_getElem g.revealed [] hxr]
    exact hrr _ (List.getElem_mem hxr)
  refine ⟨hxm, ?_, hxr, ?_⟩ <;> omega

theorem isRevealed_def (g : GameState) (a b : Int) :
    g.isRevealed a b = (if g.isValidCoordinate a b then mget g.revealed a b else false) := rfl

theorem isMine_def (g : GameState) (a b : Int) :
    g.isMine a b = (if g.isValidCoordinate a b then mget g.mineMap a b else false) := rfl

theorem isValidCoordinate_congr (g' g : GameState) (hs : g'.size = g.size) (a b : Int) :
    g'.isValidCoordinate a b = g.isValidCoordinate a b := by
  unfold GameState.isValidCoordinate
  rw [hs]

theorem reveal_fields (g : GameState) (x y : Int) :
    (g.reveal x y = (g, false) ∧
      (g.isValidCoordinate x y = false ∨ mget g.revealed x y = true)) ∨
    (g.isValidCoordinate x y = true ∧ mget g.revealed x y = false ∧
      (g.reveal x y).2 = true ∧
      (g.reveal x y).1.size = g.size ∧ (g.reveal x y).1.seed = g.seed ∧
      (g.reveal x y).1.level = g.level ∧ (g.reveal x y).1.status = g.status ∧
      (g.reveal x y).1.mineMap = g.mineMap ∧
      (g.reveal x y).1.revealed = mset g.revealed x y true ∧
      (g.reveal x y).1.hintCells = g.hintCells ∧
      (g.reveal x y).1.mineCount = g.mineCount ∧
      (g.reveal x y).1.clicks = g.clicks + 1 ∧
      (g.reveal x y).1.endedAtSet = g.endedAtSet) := by
  unfold GameState.reveal
  by_cases h1 : g.isValidCoordinate x y = true
  · by_cases h2 : mget g.revealed x y = true
    · exact Or.inl ⟨by simp [h1, h2], Or.inr h2⟩
    · have h2' : mget g.revealed x y = false := by simpa using h2
      refine Or.inr ⟨h1, h2', ?_, ?_, ?_, ?_, ?_, ?_, ?_, ?_, ?_, ?_, ?_⟩ <;>
        simp [h1, h2']
  · have h1' : g.isValidCoordinate x y = false := by simpa using h1
    exact Or.inl ⟨by simp [h1'], Or.inl h1'⟩

theorem setMine_fields (g : GameState) (x y : Int) :
    (g.isValidCoordinate x y = false ∧ g.setMine x y = (g, false)) ∨
    (g.isValidCoordinate x y = true ∧ mget g.mineMap x y = true ∧
      g.setMine x y = (g, true)) ∨
    (g.isValidCoordinate x y = true ∧ mget g.mineMap x y = false ∧
      (g.setMine x y).2 = true ∧
      (g.setMine x y).1.size = g.size ∧ (g.setMine x y).1.seed = g.seed ∧
      (g.setMine x y).1.level = g.level ∧ (g.setMine x y).1.status = g.status ∧
      (g.setMine x y).1.mineMap = mset g.mineMap x y true ∧
      (g.setMine x y).1.revealed = g.revealed ∧
      (g.setMine x y).1.hintCells = g.hintCells ∧
      (g.setMine x y).1.mineCount = g.mineCount + 1 ∧
      (g.setMine x y).1.clicks = g.clicks ∧
      (g.setMine x y).1.endedAtSet = g.endedAtSet) := by
  unfold GameState.setMine
  by_cases h1 : g.isValidCoordinate x y = true
  · by_cases h2 : mget g.mineMap x y = true
    · exact Or.inr (Or.inl ⟨h1, h2, by simp [h1, h2]⟩)
    · have h2' : mget g.mineMap x y = false := by simpa using h2
      refine Or.inr (Or.inr ⟨h1, h2', ?_, ?_, ?_, ?_, ?_, ?_, ?_, ?_, ?_, ?_, ?_⟩) <;>
        simp [h1, h2']
  · have h1' : g.isValidCoordinate x y = false := by simpa using h1
    exact Or.inl ⟨h1', by simp [h1']⟩

theorem reveal_noop_of_revealed (g : GameState) (x y : Int)
    (h : mget g.revealed x y = true) : g.reveal x y = (g, false) := by
  unfold GameState.reveal
  rw [h]
  simp

theorem isRevealed_mono_reveal (g : GameState) (x y a b : Int)
    (hab : g.isRevealed a b = true) : (g.reveal x y).1.isRevealed a b = true := by
  rcases reveal_fields g x y with ⟨he, -⟩ |
    ⟨-, -, -, hsz, -, -, -, -, hrv, -, -, -, -⟩
  · rw [he]; exact hab
  · rw [isRevealed_def, isValidCoordinate_congr _ g hsz, hrv]
    rw [isRevealed_def] at hab
    by_cases hc : g.isValidCoordinate a b = true
    · rw [if_pos hc] at hab
      rw [if_pos hc]
      exact mget_mset_true_mono g.revealed x y a b hab
    · rw [if_neg hc] at hab
      cases hab

/-! C5: operation invariants. -/

/-- C5 counterexample: SetWon applied to an already-lost game flips the
terminal status from Lost to Won, so the bare operations do not guarantee
that a terminal status is never reversed (the guarantee holds only because
the reconciler never invokes them outside Playing). -/
theorem setWon_after_lost_cex :
    ((newGameState 1 0).setLost).status = .lost ∧
    (((newGameState 1 0).setLost).setWon).status = .won ∧
    (((newGameState 1 0).setLost).setWon).status ≠ .lost := by
  decide

/-- C5 amended: SetMine, Reveal and AddHintCell preserve the matrix-shape
invariant, the mineCount live count (a duplicate SetMine is an exact no-op
and does not increment it), the status, and never un-reveal a coordinate;
SetWon and SetLost yield the terminal statuses Won and Lost respectively (so
from a Playing state the only transitions are Playing to Won and Playing to
Lost), but applied to an already terminal state they overwrite it. -/
theorem gameState_ops_preserve_invariants (g : GameState) (x y : Int)
    (hwf : WFMatrices g) (hcount : g.mineCount = (countTrue g.mineMap : Int)) :
    (WFMatrices (g.reveal x y).1 ∧ WFMatrices (g.setMine x y).1 ∧
      WFMatrices (g.addHintCell x y) ∧ WFMatrices g.setWon ∧ WFMatrices g.setLost) ∧
    ((g.reveal x y).1.mineCount = (countTrue (g.reveal x y).1.mineMap : Int) ∧
      (g.setMine x y).1.mineCount = (countTrue (g.setMine x y).1.mineMap : Int) ∧
      (g.addHintCell x y).mineCount = (countTrue (g.addHintCell x y).mineMap : Int) ∧
      g.setWon.mineCount = (countTrue g.setWon.mineMap : Int) ∧
      g.setLost.mineCount = (countTrue g.setLost.mineMap : Int)) ∧
    (g.isMine x y = true → g.setMine x y = (g, true)) ∧
    ((g.reveal x y).1.status = g.status ∧ (g.setMine x y).1.status = g.status ∧
      (g.addHintCell x y).status = g.status ∧ g.setWon.status = .won ∧
      g.setLost.status = .lost) ∧
    (∀ a b, g.isRevealed a b = true →
      (g.reveal x y).1.isRevealed a b = true ∧ (g.setMine x y).1.isRevealed a b = true ∧
      (g.addHintCell x y).isRevealed a b = true ∧ g.setWon.isRevealed a b = true ∧
      g.setLost.isRevealed a b = true) := by
  have hwfR : WFMatrices (g.reveal x y).1 := by
    rcases reveal_fields g x y with ⟨he, -⟩ |
      ⟨-, -, -, hsz, -, -, -, hmm', hrv, -, -, -, -⟩
    · rw [he]; exact hwf
    · rcases hwf with ⟨h1, h2, h3, h4⟩
      unfold WFMatrices
      rw [hsz, hmm', hrv, length_mset]
      exact ⟨h1, h2, h3, rows_mset _ x y true _ h4⟩
  have hwfS : WFMatrices (g.setMine x y).1 := by
    rcases setMine_fields g x y with ⟨-, he⟩ | ⟨-, -, he⟩ |
      ⟨-, -, -, hsz, -, -, -, hmm', hrv, -, -, -, -⟩
    · rw [he]; exact hwf
    · rw [he]; exact hwf
    · rcases hwf with ⟨h1, h2, h3, h4⟩
      unfold WFMatrices
      rw [hsz, hmm', hrv, length_mset]
      exact ⟨h1, h2, rows_mset _ x y true _ h3, h4⟩
  have hcR : (g.reveal x y).1.mineCount = (countTrue (g.reveal x y).1.mineMap : Int) := by
    rcases reveal_fields g x y with ⟨he, -⟩ |
      ⟨-, -, -, -, -, -, -, hmm', -, -, hmc, -, -⟩
    · rw [he]; exact hcount
    · rw [hmc, hmm']; exact hcount
  have hcS : (g.setMine x y).1.mineCount = (countTrue (g.setMine x y).1.mineMap : Int) := by
    rcases setMine_fields g x y with ⟨-, he⟩ | ⟨-, -, he⟩ |
      ⟨hv, hm, -, -, -, -, -, hmm', -, -, hmc, -, -⟩
    · rw [he]; exact hcount
    · rw [he]; exact hcount
    · rw [hmc, hmm']
      have hb := valid_bounds g x y hv hwf
      rw [countTrue_mset_true g.mineMap x y hb.1 hb.2.1 hm]
      omega
  have hdup : g.isMine x y = true → g.setMine x y = (g, true) := by
    intro him
    rcases setMine_fields g x y with ⟨h1, -⟩ | ⟨-, -, he⟩ | ⟨hv, hm, -⟩
    · rw [isMine_def, h1] at him; simp at him
    · exact he
    · rw [isMine_def, if_pos hv, hm] at him; cases him
  have hstR : (g.reveal x y).1.status = g.status := by
    rcases reveal_fields g x y with ⟨he, -⟩ | ⟨-, -, -, -, -, -, hst, -, -, -, -, -, -⟩
    · rw [he]
    · exact hst
  have hstS : (g.setMine x y).1.status = g.status := by
    rcases setMine_fields g x y with ⟨-, he⟩ | ⟨-, -, he⟩ |
      ⟨-, -, -, -, -, -, hst, -, -, -, -, -, -⟩
    · rw [he]
    · rw [he]
    · exact hst
  have hmono : ∀ a b, g.isRevealed a b = true →
      (g.reveal x y).1.isRevealed a b = true ∧ (g.setMine x y).1.isRevealed a b = true ∧
      (g.addHintCell x y).isRevealed a b = true ∧ g.setWon.isRevealed a b = true ∧
      g.setLost.isRevealed a b = true := by
    intro a b hab
    have hR : (g.reveal x y).1.isRevealed a b = true :=
      isRevealed_mono_reveal g x y a b hab
    have hS : (g.setMine x y).1.isRevealed a b = true := by
      rcases setMine_fields g x y with ⟨-, he⟩ | ⟨-, -, he⟩ |
        ⟨-, -, -, hsz, -, -, -, -, hrv, -, -, -, -⟩
      · rw [he]; exact hab
      · rw [he]; exact hab
      · rw [isRevealed_def, isValidCoordinate_congr _ g hsz, hrv]
        rw [isRevealed_def] at hab
        exact hab
    exact ⟨hR, hS, hab, hab, hab⟩
  exact ⟨⟨hwfR, hwfS, hwf, hwf, hwf⟩, ⟨hcR, hcS, hcount, hcount, hcount⟩, hdup,
    ⟨hstR, hstS, rfl, rfl, rfl⟩, hmono⟩

/-- Witness for C5 on a concrete 2 x 2 state. -/
theorem gameState_ops_preserve_invariants_witness :
    WFMatrices (newGameState 2 0) ∧
    ((newGameState 2 0).setMine 0 1).1.mineCount =
      (countTrue ((newGameState 2 0).setMine 0 1).1.mineMap : Int) := by
  have hwf : WFMatrices (newGameState 2 0) := by
    unfold WFMatrices
    exact ⟨by decide, by decide, by decide, by decide⟩
  have hc : (newGameState 2 0).mineCount = (countTrue (newGameState 2 0).mineMap : Int) := by
    decide
  exact ⟨hwf, (gameState_ops_preserve_invariants (newGameState 2 0) 0 1 hwf hc).2.1.2.1⟩

/-! C6: reveal idempotence. -/

/-- C6: on an in-bounds unrevealed coordinate the first Reveal succeeds and
increments Clicks by exactly one; the second Reveal on the same coordinate is
a strict no-op (same state, false result, no click); and the reconciler
ignores a deletion whose coordinate is already revealed. -/
theorem reveal_idempotent (g : GameState) (x y : Int) (hwf : WFMatrices g)
    (hv : g.isValidCoordinate x y = true) (hr : g.isRevealed x y = false) :
    (g.reveal x y).2 = true ∧
    (g.reveal x y).1.clicks = g.clicks + 1 ∧
    (g.reveal x y).1.isRevealed x y = true ∧
    (g.reveal x y).1.reveal x y = ((g.reveal x y).1, false) ∧
    (∀ delOk w c s, w.store = some s → s.isRevealed c.x c.y = true →
      handlePodDeletion delOk w c = .ok w) := by
  have hmg : mget g.revealed x y = false := by
    rw [isRevealed_def, if_pos hv] at hr
    exact hr
  rcases reveal_fields g x y with ⟨-, hbad⟩ |
    ⟨-, -, h2, hsz, -, -, -, -, hrv, -, -, hck, -⟩
  · rcases hbad with hbad | hbad
    · rw [hv] at hbad; cases hbad
    · rw [hmg] at hbad; cases hbad
  · have hb := valid_bounds g x y hv hwf
    have hset : mget (mset g.revealed x y true) x y = true :=
      mget_mset_self g.revealed x y true hb.2.2.1 hb.2.2.2
    refine ⟨h2, hck, ?_, ?_, ?_⟩
    · rw [isRevealed_def, isValidCoordinate_congr _ g hsz, if_pos hv, hrv]
      exact hset
    · apply reveal_noop_of_revealed
      rw [hrv]
      exact hset
    · intro delOk w c s hw hrev
      by_cases hst : s.status = .playing
      · simp [handlePodDeletion, hw, hst, hrev]
      · simp [handlePodDeletion, hw, hst]

/-- Witness for C6 on a concrete 2 x 2 state at (0, 1). -/
theorem reveal_idempotent_witness :
    ((newGameState 2 0).reveal 0 1).2 = true ∧
    ((newGameState 2 0).reveal 0 1).1.reveal 0 1 =
      (((newGameState 2 0).reveal 0 1).1, false) := by
  have hwf : WFMatrices (newGameState 2 0) := by
    unfold WFMatrices
    exact ⟨by decide, by decide, by decide, by decide⟩
  have h := reveal_idempotent (newGameState 2 0) 0 1 hwf (by decide) (by decide)
  exact ⟨h.1, h.2.2.2.1⟩

/-! C2: identifier parsing and resource naming. -/

theorem matchLit_iff (lit : List Char) : ∀ s r : List Char,
    matchLit lit s = some r ↔ s = lit ++ r := by
  induction lit with
  | nil =>
    intro s r
    simp only [matchLit, Option.some_inj, List.nil_append]
  | cons p ps ih =>
    intro s r
    cases s with
    | nil => simp [matchLit]
    | cons c cs =>
      by_cases hc : c = p
      · subst hc
        simp [matchLit, ih cs r]
      · simp [matchLit, hc, Ne.symm hc]

theorem takeWhile_all (p : Char → Bool) : ∀ l : List Char, (∀ a ∈ l, p a = true) →
    l.takeWhile p = l ∧ l.dropWhile p = [] := by
  intro l
  induction l with
  | nil => intro; simp
  | cons a as ih =>
    intro h
    have ha : p a = true := h a (by simp)
    have hrec := ih (fun b hb => h b (by simp [hb]))
    simp [List.takeWhile_cons, List.dropWhile_cons, ha, hrec.1, hrec.2]

theorem takeWhile_append_stop (p : Char → Bool) : ∀ (l1 : List Char) (c : Char)
    (l2 : List Char), (∀ a ∈ l1, p a = true) → p c = false →
    (l1 ++ c :: l2).takeWhile p = l1 ∧ (l1 ++ c :: l2).dropWhile p = c :: l2 := by
  intro l1
  induction l1 with
  | nil =>
    intro c l2 _ hc
    simp [List.takeWhile_cons, List.dropWhile_cons, hc]
  | cons a as ih =>
    intro c l2 h hc
    have ha : p a = true := h a (by simp)
    have hrec := ih c l2 (fun b hb => h b (by simp [hb])) hc
    simp [List.takeWhile_cons, List.dropWhile_cons, ha, hrec.1, hrec.2]

theorem splitNameDigits_iff (lit : List Char) (name : String) (d1 d2 : List Char) :
    splitNameDigits lit name = some (d1, d2) ↔ RegexShape lit name d1 d2 := by
  constructor
  · intro h
    unfold splitNameDigits at h
    rcases hm : matchLit lit name.toList with - | rest
    · simp only [hm] at h
      exact Option.noConfusion h
    · simp only [hm] at h
      rcases hd : rest.dropWhile isDigitChar with - | ⟨c, r2⟩
      · simp only [hd] at h
        exact Option.noConfusion h
      · simp only [hd] at h
        by_cases hc : c = '-'
        · subst hc
          rw [if_pos rfl] at h
          by_cases he : ((rest.takeWhile isDigitChar).isEmpty ||
              (r2.takeWhile isDigitChar).isEmpty) = true
          · rw [if_pos he] at h
            exact Option.noConfusion h
          · rw [if_neg he] at h
            by_cases he2 : (r2.dropWhile isDigitChar).isEmpty = true
            · rw [if_pos he2] at h
              have hpair : (rest.takeWhile isDigitChar, r2.takeWhile isDigitChar) = (d1, d2) :=
                Option.some_inj.mp h
              have h1 : rest.takeWhile isDigitChar = d1 := congrArg Prod.fst hpair
              have h2 : r2.takeWhile isDigitChar = d2 := congrArg Prod.snd hpair
              have hname : name.toList = lit ++ rest := (matchLit_iff lit _ _).mp hm
              have hsplit : rest.takeWhile isDigitChar ++ rest.dropWhile isDigitChar = rest :=
                List.takeWhile_append_dropWhile isDigitChar rest
              have hr2 : r2.takeWhile isDigitChar ++ r2.dropWhile isDigitChar = r2 :=
                List.takeWhile_append_dropWhile isDigitChar r2
              rw [List.isEmpty_iff] at he2
              rw [he2, List.append_nil] at hr2
              simp only [Bool.or_eq_true, List.isEmpty_iff, not_or] at he
              rw [h1] at he hsplit
              rw [h2] at he hr2
              refine ⟨?_, he.1, ?_, ?_, ?_⟩
              · rw [hname, ← hsplit, hd, hr2, List.append_assoc]
              · exact he.2
              · intro ch hch
                rw [← h1] at hch
                exact List.mem_takeWhile_imp hch
              · intro ch hch
                rw [← h2] at hch
                exact List.mem_takeWhile_imp hch
            · rw [if_neg he2] at h
              exact Option.noConfusion h
        · rw [if_neg hc] at h
          exact Option.noConfusion h
  · rintro ⟨hname, h1ne, h2ne, h1d, h2d⟩
    rw [List.append_assoc] at hname
    have hm : matchLit lit name.toList = some (d1 ++ '-' :: d2) :=
      (matchLit_iff lit _ _).mpr hname
    have hsplit := takeWhile_append_stop isDigitChar d1 '-' d2 h1d (by decide)
    have hall := takeWhile_all isDigitChar d2 h2d
    have h1e : d1.isEmpty = false := by
      cases d1
      · exact absurd rfl h1ne
      · rfl
    have h2e : d2.isEmpty = false := by
      cases d2
      · exact absurd rfl h2ne
      · rfl
    unfold splitNameDigits
    simp only [hm, hsplit.1, hsplit.2, hall.1, hall.2]
    simp [h1e, h2e]

theorem parseGeneric_iff (lit : List Char) (name : String) (x y : Int) :
    (match splitNameDigits lit name with
      | none => none
      | some (d1, d2) =>
        match atoiDigits d1, atoiDigits d2 with
        | some a, some b => some (Coordinate.mk a b)
        | _, _ => none) = some (Coordinate.mk x y) ↔
    ∃ d1 d2, RegexShape lit name d1 d2 ∧ atoiDigits d1 = some x ∧ atoiDigits d2 = some y := by
  constructor
  · intro h
    rcases hs : splitNameDigits lit name with - | ⟨d1, d2⟩
    · simp only [hs] at h
      exact Option.noConfusion h
    · simp only [hs] at h
      rcases ha : atoiDigits d1 with - | a
      · simp only [ha] at h
        exact Option.noConfusion h
      · rcases hb : atoiDigits d2 with - | b
        · simp only [ha, hb] at h
          exact Option.noConfusion h
        · simp only [ha, hb] at h
          have hab : Coordinate.mk a b = Coordinate.mk x y := Option.some_inj.mp h
          have hax : a = x := congrArg Coordinate.x hab
          have hby : b = y := congrArg Coordinate.y hab
          exact ⟨d1, d2, (splitNameDigits_iff lit name d1 d2).mp hs,
            hax ▸ ha, hby ▸ hb⟩
  · rintro ⟨d1, d2, hshape, ha, hb⟩
    rw [(splitNameDigits_iff lit name d1 d2).mpr hshape]
    simp only
    rw [ha, hb]

theorem parsePodName_iff (name : String) (x y : Int) :
    parsePodName name = some (Coordinate.mk x y) ↔
    ∃ d1 d2, RegexShape podLit name d1 d2 ∧
      atoiDigits d1 = some x ∧ atoiDigits d2 = some y :=
  parseGeneric_iff podLit name x y

theorem parseHintPodName_iff (name : String) (x y : Int) :
    parseHintPodName name = some (Coordinate.mk x y) ↔
    ∃ d1 d2, RegexShape hintLit name d1 d2 ∧
      atoiDigits d1 = some x ∧ atoiDigits d2 = some y :=
  parseGeneric_iff hintLit name x y

theorem digitChar_isDigit (d : Nat) : isDigitChar (digitChar d) = true := by
  unfold digitChar
  split <;> decide

theorem digitChar_toNat (d : Nat) (h : d < 10) : (digitChar d).toNat = 48 + d := by
  interval_cases d <;> decide

theorem digitsToNat_append (l : List Char) (c : Char) :
    digitsToNat (l ++ [c]) = digitsToNat l * 10 + (c.toNat - 48) := by
  unfold digitsToNat
  rw [List.foldl_append]
  rfl

theorem natDigitsGo_append : ∀ (fuel n : Nat) (acc : List Char),
    natDigitsGo fuel n acc = natDigitsGo fuel n [] ++ acc := by
  intro fuel
  induction fuel with
  | zero => intro n acc; rfl
  | succ fuel ih =>
    intro n acc
    unfold natDigitsGo
    by_cases h : n < 10
    · rw [if_pos h, if_pos h]
      rfl
    · rw [if_neg h, if_neg h, ih (n / 10) (digitChar (n % 10) :: acc),
        ih (n / 10) [digitChar (n % 10)]]
      simp

theorem natDigitsGo_fuel : ∀ (fuel fuel' n : Nat), n ≤ fuel → n ≤ fuel' →
    natDigitsGo fuel n [] = natDigitsGo fuel' n [] := by
  intro fuel
  induction fuel with
  | zero =>
    intro fuel' n hf hf'
    have hn : n = 0 := by omega
    subst hn
    cases fuel' with
    | zero => rfl
    | succ k => rfl
  | succ fuel ih =>
    intro fuel' n hf hf'
    by_cases h : n < 10
    · cases fuel' with
      | zero =>
        have hn : n = 0 := by omega
        subst hn
        rfl
      | succ k =>
        show (if n < 10 then _ else _) = (if n < 10 then _ else _)
        rw [if_pos h, if_pos h]
    · cases fuel' with
      | zero => omega
      | succ k =>
        show (if n < 10 then _ else _) = (if n < 10 then _ else _)
        rw [if_neg h, if_neg h,
          natDigitsGo_append fuel (n / 10) (digitChar (n % 10) :: []),
          natDigitsGo_append k (n / 10) (digitChar (n % 10) :: [])]
        have hdiv : n / 10 ≤ fuel := by
          have := Nat.div_lt_self (show 0 < n by omega) (show 1 < 10 by omega)
          omega
        have hdiv' : n / 10 ≤ k := by
          have := Nat.div_lt_self (show 0 < n by omega) (show 1 < 10 by omega)
          omega
        rw [ih k (n / 10) hdiv hdiv']

theorem natDigits_eq (n : Nat) :
    natDigits n = if n < 10 then [digitChar n]
      else natDigits (n / 10) ++ [digitChar (n % 10)] := by
  unfold natDigits
  by_cases h : n < 10
  · rw [if_pos h]
    cases n with
    | zero => rfl
    | succ k =>
      show (if k + 1 < 10 then _ else _) = _
      rw [if_pos h]
  · rw [if_neg h]
    have hpos : n ≠ 0 := by omega
    obtain ⟨m, rfl⟩ : ∃ m, n = m + 1 := ⟨n - 1, by omega⟩
    show (if m + 1 < 10 then _ else _) = _
    rw [if_neg h, natDigitsGo_append m ((m + 1) / 10) [digitChar ((m + 1) % 10)]]
    have hdiv : (m + 1) / 10 ≤ m := by
      have := Nat.div_lt_self (show 0 < m + 1 by omega) (show 1 < 10 by omega)
      omega
    rw [natDigitsGo_fuel m ((m + 1) / 10) ((m + 1) / 10) hdiv (Nat.le_refl _)]

theorem natDigits_spec (n : Nat) :
    (∀ ch ∈ natDigits n, isDigitChar ch = true) ∧ natDigits n ≠ [] ∧
    digitsToNat (natDigits n) = n := by
  induction n using Nat.strong_induction_on with
  | _ n ih =>
    by_cases h : n < 10
    · rw [natDigits_eq n, if_pos h]
      refine ⟨?_, by simp, ?_⟩
      · intro ch hch
        have : ch = digitChar n := by simpa using hch
        rw [this]
        exact digitChar_isDigit n
      · show digitsToNat [digitChar n] = n
        unfold digitsToNat
        simp only [List.foldl_cons, List.foldl_nil]
        rw [digitChar_toNat n h]
        omega
    · rw [natDigits_eq n, if_neg h]
      have hlt : n / 10 < n := Nat.div_lt_self (by omega) (by omega)
      obtain ⟨ihd, -, ihval⟩ := ih (n / 10) hlt
      refine ⟨?_, by simp, ?_⟩
      · intro ch hch
        rcases List.mem_append.mp hch with hch | hch
        · exact ihd ch hch
        · have : ch = digitChar (n % 10) := by simpa using hch
          rw [this]
          exact digitChar_isDigit _
      · rw [digitsToNat_append, ihval, digitChar_toNat (n % 10) (Nat.mod_lt _ (by omega))]
        omega

theorem atoiDigits_natDigits (n : Nat) (hn : n ≤ maxInt64) :
    atoiDigits (natDigits n) = some (n : Int) := by
  obtain ⟨-, hne, hval⟩ := natDigits_spec n
  have hemp : (natDigits n).isEmpty = false := by
    cases hcase : natDigits n
    · exact absurd hcase hne
    · rfl
  unfold atoiDigits
  rw [hemp, hval]
  simp [hn]

/-- C2 counterexample: the code's identifiers are "pod-x-y", not the spec's
"cell-x-y": "pod-1-2" parses as the game event (1, 2) although it matches
neither claimed pattern, while "cell-1-2", which the claim says is a grid
cell event, is rejected by every parse function; moreover a digit group
overflowing int64 matches the regex but is not parsed. -/
theorem parse_names_cell_cex :
    parsePodName "pod-1-2" = some (Coordinate.mk 1 2) ∧
    parsePodName "cell-1-2" = none ∧
    parseHintPodName "cell-1-2" = none ∧
    isPodName "cell-1-2" = false ∧
    isPodName "pod-99999999999999999999-0" = true ∧
    parsePodName "pod-99999999999999999999-0" = none := by
  refine ⟨?_, ?_, ?_, ?_, ?_, ?_⟩ <;> decide

/-- C2 amended: the reconciler treats an identifier as a game event iff it
matches the anchored pattern pod-(digits)-(digits) with both groups in int64
range, extracting (x, y); hint resources follow hint-(digits)-(digits) with
the same extraction (their deletions are parsed by ParseHintPodName but are
not reconciler game events); names failing ParsePodName are ignored by the
reconciler; and the names the system creates, pod-x-y and hint-x-y, parse
back to their coordinate. -/
theorem parse_names_spec :
    (∀ name x y, parsePodName name = some (Coordinate.mk x y) ↔
      ∃ d1 d2, RegexShape podLit name d1 d2 ∧
        atoiDigits d1 = some x ∧ atoiDigits d2 = some y) ∧
    (∀ name x y, parseHintPodName name = some (Coordinate.mk x y) ↔
      ∃ d1 d2, RegexShape hintLit name d1 d2 ∧
        atoiDigits d1 = some x ∧ atoiDigits d2 = some y) ∧
    (∀ delOk w name, parsePodName name = none → reconcileEvent delOk w name = .ok w) ∧
    (∀ c : Coordinate, 0 ≤ c.x → c.x ≤ (maxInt64 : Int) → 0 ≤ c.y →
      c.y ≤ (maxInt64 : Int) →
      parsePodName c.podName = some c ∧ parseHintPodName c.hintPodName = some c) := by
  refine ⟨parsePodName_iff, parseHintPodName_iff, ?_, ?_⟩
  · intro delOk w name h
    simp [reconcileEvent, h]
  · intro c hx hxM hy hyM
    have hxN : c.x.toNat ≤ maxInt64 := by
      have := Int.toNat_of_nonneg hx
      omega
    have hyN : c.y.toNat ≤ maxInt64 := by
      have := Int.toNat_of_nonneg hy
      omega
    have hax : atoiDigits (natDigits c.x.toNat) = some c.x := by
      rw [atoiDigits_natDigits c.x.toNat hxN, Int.toNat_of_nonneg hx]
    have hay : atoiDigits (natDigits c.y.toNat) = some c.y := by
      rw [atoiDigits_natDigits c.y.toNat hyN, Int.toNat_of_nonneg hy]
    obtain ⟨hdx, hnex, -⟩ := natDigits_spec c.x.toNat
    obtain ⟨hdy, hney, -⟩ := natDigits_spec c.y.toNat
    have hpod : c.podName.toList =
        podLit ++ natDigits c.x.toNat ++ '-' :: natDigits c.y.toNat := by
      show ('p' :: 'o' :: 'd' :: '-' :: intDecimal c.x) ++ '-' :: intDecimal c.y = _
      unfold intDecimal
      rw [if_neg (by omega), if_neg (by omega)]
      simp [podLit]
    have hhint : c.hintPodName.toList =
        hintLit ++ natDigits c.x.toNat ++ '-' :: natDigits c.y.toNat := by
      show ('h' :: 'i' :: 'n' :: 't' :: '-' :: intDecimal c.x) ++ '-' :: intDecimal c.y = _
      unfold intDecimal
      rw [if_neg (by omega), if_neg (by omega)]
      simp [hintLit]
    constructor
    · have := (parsePodName_iff c.podName c.x c.y).mpr
        ⟨natDigits c.x.toNat, natDigits c.y.toNat,
          ⟨hpod, hnex, hney, hdx, hdy⟩, hax, hay⟩
      simpa using this
    · have := (parseHintPodName_iff c.hintPodName c.x c.y).mpr
        ⟨natDigits c.x.toNat, natDigits c.y.toNat,
          ⟨hhint, hnex, hney, hdx, hdy⟩, hax, hay⟩
      simpa using this

/-- Witness for C2 at (3, 5) and a rejected name. -/
theorem parse_names_spec_witness :
    parsePodName (Coordinate.mk 3 5).podName = some (Coordinate.mk 3 5) ∧
    parseHintPodName (Coordinate.mk 3 5).hintPodName = some (Coordinate.mk 3 5) ∧
    reconcileEvent (fun _ => true) ⟨none, []⟩ "nginx" = .ok ⟨none, []⟩ := by
  have h4 := parse_names_spec.2.2.2 (Coordinate.mk 3 5)
    (by decide) (by decide) (by decide) (by decide)
  exact ⟨h4.1, h4.2, parse_names_spec.2.2.1 _ _ _ (by decide)⟩

/-! C7: absent state and terminal state are ignored without error. -/

/-- C7: SecretStore.Load on a missing Secret is the absent value, not an
error, and a deletion event is ignored, with no handler run, no state change
and no error, when no game state is stored or the stored status is not
Playing. -/
theorem reconciler_ignores_absent_and_terminal :
    secretStoreLoad .notFound = .ok none ∧
    (∀ delOk w c, w.store = none → handlePodDeletion delOk w c = .ok w) ∧
    (∀ delOk w c s, w.store = some s → s.status ≠ .playing →
      handlePodDeletion delOk w c = .ok w) := by
  refine ⟨rfl, ?_, ?_⟩
  · intro delOk w c h
    simp [handlePodDeletion, h]
  · intro delOk w c s h hs
    simp [handlePodDeletion, h, hs]

/-- Witness for C7: no stored game, and a finished game. -/
theorem reconciler_ignores_absent_and_terminal_witness :
    handlePodDeletion (fun _ => true) ⟨none, []⟩ ⟨0, 0⟩ = .ok ⟨none, []⟩ ∧
    handlePodDeletion (fun _ => true) ⟨some ((newGameState 1 0).setLost), []⟩ ⟨0, 0⟩ =
      .ok ⟨some ((newGameState 1 0).setLost), []⟩ := by
  constructor
  · exact reconciler_ignores_absent_and_terminal.2.1 _ _ _ rfl
  · exact reconciler_ignores_absent_and_terminal.2.2 _ _ _ _ rfl (by decide)

/-! C8: seed-deterministic generation. -/

/-- C8: GenerateWithSeed is a function of the config and the seed alone; the
generator's own mutable RNG stream is never consulted, so two calls on
generators with equal configs (and arbitrary, possibly different, internal
stream states) produce identical mine layouts. -/
theorem generateWithSeed_deterministic (g1 g2 : Generator) (h : g1.config = g2.config)
    (s : Int) :
    (g1.generateWithSeed s).mineMap = (g2.generateWithSeed s).mineMap ∧
    (g1.generateWithSeed s).mineCount = (g2.generateWithSeed s).mineCount := by
  unfold Generator.generateWithSeed
  rw [h]
  exact ⟨rfl, rfl⟩

/-- Witness for C8: same config, two different internal stream states. -/
theorem generateWithSeed_deterministic_witness :
    ((⟨⟨4, 0, 15 / 100, 1, 0⟩, ⟨111⟩⟩ : Generator).generateWithSeed 42).mineMap =
    ((⟨⟨4, 0, 15 / 100, 1, 0⟩, ⟨222⟩⟩ : Generator).generateWithSeed 42).mineMap := by
  exact (generateWithSeed_deterministic ⟨⟨4, 0, 15 / 100, 1, 0⟩, ⟨111⟩⟩
    ⟨⟨4, 0, 15 / 100, 1, 0⟩, ⟨222⟩⟩ rfl 42).1

/-! C1: the BFS flood-fill. -/

theorem mem_gridCoords (s : Int) (c : Coordinate) :
    c ∈ gridCoords s ↔ 0 ≤ c.x ∧ c.x < s ∧ 0 ≤ c.y ∧ c.y < s := by
  unfold gridCoords
  simp only [List.mem_flatMap, List.mem_map, List.mem_range]
  constructor
  · rintro ⟨X, hX, Y, hY, rfl⟩
    unfold natPairCoord
    dsimp only
    refine ⟨by omega, by omega, by omega, by omega⟩
  · rintro ⟨hx0, hxs, hy0, hys⟩
    refine ⟨c.x.toNat, by omega, c.y.toNat, by omega, ?_⟩
    unfold natPairCoord
    obtain ⟨cx, cy⟩ := c
    simp only at hx0 hy0 ⊢
    congr 1 <;> omega

theorem getNeighbors_valid (g : GameState) (x y : Int) :
    ∀ c ∈ g.getNeighbors x y, g.isValidCoordinate c.x c.y = true := by
  intro c hc
  unfold GameState.getNeighbors at hc
  simp only [List.mem_map, List.mem_filter] at hc
  obtain ⟨d, ⟨-, hd⟩, rfl⟩ := hc
  exact hd

theorem unvisitedCard_append (g : GameState) (v : List Coordinate) (n : Coordinate)
    (hval : g.isValidCoordinate n.x n.y = true) (hnv : n ∉ v) :
    unvisitedCard g (v ++ [n]) + 1 = unvisitedCard g v := by
  unfold unvisitedCard
  have hmem : n ∈ (gridCoords g.size).toFinset := by
    rw [List.mem_toFinset, mem_gridCoords]
    exact (isValidCoordinate_iff g n.x n.y).mp hval
  have key : (gridCoords g.size).toFinset \ (v ++ [n]).toFinset =
      ((gridCoords g.size).toFinset \ v.toFinset).erase n := by
    ext a
    simp only [Finset.mem_sdiff, Finset.mem_erase, List.mem_toFinset, List.mem_append,
      List.mem_singleton, not_or]
    tauto
  rw [key]
  exact Finset.card_erase_add_one (Finset.mem_sdiff.mpr ⟨hmem, by simpa using hnv⟩)

theorem unvisitedCard_append_list (g : GameState) : ∀ (added v : List Coordinate),
    added.Nodup → (∀ a ∈ added, g.isValidCoordinate a.x a.y = true ∧ a ∉ v) →
    unvisitedCard g (v ++ added) + added.length = unvisitedCard g v := by
  intro added
  induction added with
  | nil => intro v _ _; simp
  | cons a as ih =>
    intro v hnd hprop
    have ha := hprop a (by simp)
    have h1 : unvisitedCard g (v ++ [a]) + 1 = unvisitedCard g v :=
      unvisitedCard_append g v a ha.1 ha.2
    have h2 : unvisitedCard g ((v ++ [a]) ++ as) + as.length = unvisitedCard g (v ++ [a]) := by
      apply ih
      · exact (List.nodup_cons.mp hnd).2
      · intro c hc
        refine ⟨(hprop c (by simp [hc])).1, ?_⟩
        have hcv := (hprop c (by simp [hc])).2
        have hca : c ≠ a := by
          intro hEq
          subst hEq
          exact (List.nodup_cons.mp hnd).1 hc
        simp [hcv, hca]
    have hre : v ++ a :: as = (v ++ [a]) ++ as := by simp
    rw [hre]
    simp only [List.length_cons]
    omega

theorem enqueueNeighbors_spec (g : GameState) : ∀ (ns v q : List Coordinate),
    ∃ added,
      (enqueueNeighbors g ns v q).1 = v ++ added ∧
      (enqueueNeighbors g ns v q).2 = q ++ added ∧
      added.Nodup ∧
      (∀ a ∈ added, a ∈ ns ∧ a ∉ v ∧ g.isRevealed a.x a.y = false ∧
        g.isMine a.x a.y = false) := by
  intro ns
  induction ns with
  | nil =>
    intro v q
    exact ⟨[], by simp [enqueueNeighbors], by simp [enqueueNeighbors], by simp, by simp⟩
  | cons n ns ih =>
    intro v q
    unfold enqueueNeighbors
    by_cases hcond : (!(decide (n ∈ v)) && !(g.isRevealed n.x n.y) &&
        !(g.isMine n.x n.y)) = true
    · rw [if_pos hcond]
      simp only [Bool.and_eq_true, Bool.not_eq_true', decide_eq_false_iff_not] at hcond
      obtain ⟨⟨hnv, hrev⟩, hmine⟩ := hcond
      obtain ⟨added, h1, h2, h3, h4⟩ := ih (v ++ [n]) (q ++ [n])
      refine ⟨n :: added, ?_, ?_, ?_, ?_⟩
      · rw [h1]; simp
      · rw [h2]; simp
      · rw [List.nodup_cons]
        refine ⟨?_, h3⟩
        intro hmem
        have := (h4 n hmem).2.1
        simp at this
      · intro a ha
        rcases List.mem_cons.mp ha with rfl | ha
        · exact ⟨by simp, hnv, hrev, hmine⟩
        · obtain ⟨ha1, ha2, ha3, ha4⟩ := h4 a ha
          refine ⟨by simp [ha1], ?_, ha3, ha4⟩
          intro hav
          exact ha2 (by simp [hav])
    · rw [if_neg hcond]
      obtain ⟨added, h1, h2, h3, h4⟩ := ih v q
      refine ⟨added, h1, h2, h3, ?_⟩
      intro a ha
      obtain ⟨ha1, ha2, ha3, ha4⟩ := h4 a ha
      exact ⟨by simp [ha1], ha2, ha3, ha4⟩

theorem bfsLoop_nil (g : GameState) (fuel : Nat) (v e b : List Coordinate) :
    bfsLoop g (fuel + 1) v [] e b = some (e, b) := rfl

theorem bfsLoop_cons (g : GameState) (fuel : Nat)
    (v rest e b : List Coordinate) (current : Coordinate) :
    bfsLoop g (fuel + 1) v (current :: rest) e b =
      if g.adjacentMines current.x current.y = 0 then
        bfsLoop g fuel
          (enqueueNeighbors g (g.getNeighbors current.x current.y) v rest).1
          (enqueueNeighbors g (g.getNeighbors current.x current.y) v rest).2
          (e ++ [current]) b
      else bfsLoop g fuel v rest e (b ++ [current]) := rfl

theorem bfsLoop_spec (g : GameState) (start : Coordinate) : ∀ (fuel : Nat)
    (v queue e b : List Coordinate),
    unvisitedCard g v + queue.length < fuel →
    (∀ c ∈ queue, c ∈ v) → (∀ c ∈ e, c ∈ v) → (∀ c ∈ b, c ∈ v) →
    (e ++ b ++ queue).Nodup →
    (∀ c ∈ e, g.adjacentMines c.x c.y = 0) →
    (∀ c ∈ b, g.adjacentMines c.x c.y ≠ 0) →
    (∀ c ∈ e ++ b ++ queue, c = start ∨
      (g.isValidCoordinate c.x c.y = true ∧ g.isMine c.x c.y = false ∧
        g.isRevealed c.x c.y = false)) →
    ∃ eb : List Coordinate × List Coordinate,
      bfsLoop g fuel v queue e b = some eb ∧
      (eb.1 ++ eb.2).Nodup ∧
      (∀ c ∈ eb.1, g.adjacentMines c.x c.y = 0) ∧
      (∀ c ∈ eb.2, g.adjacentMines c.x c.y ≠ 0) ∧
      (∀ c ∈ eb.1 ++ eb.2, c = start ∨
        (g.isValidCoordinate c.x c.y = true ∧ g.isMine c.x c.y = false ∧
          g.isRevealed c.x c.y = false)) := by
  intro fuel
  induction fuel with
  | zero =>
    intro v queue e b hmu _ _ _ _ _ _ _
    omega
  | succ fuel ih =>
    intro v queue e b hmu hqv hev hbv hnd he hb hP
    cases queue with
    | nil =>
      refine ⟨(e, b), bfsLoop_nil g fuel v e b, ?_, he, hb, ?_⟩
      · simpa using hnd
      · intro c hc
        exact hP c (by simpa using hc)
    | cons current rest =>
      have hcv : current ∈ v := hqv current (by simp)
      by_cases hadj : g.adjacentMines current.x current.y = 0
      · set EN := enqueueNeighbors g (g.getNeighbors current.x current.y) v rest with hEN
        obtain ⟨added, hv', hq', hndA, hpropsA⟩ :=
          enqueueNeighbors_spec g (g.getNeighbors current.x current.y) v rest
        rw [← hEN] at hv' hq'
        have haddedValid : ∀ a ∈ added, g.isValidCoordinate a.x a.y = true := fun a ha =>
          getNeighbors_valid g current.x current.y a (hpropsA a ha).1
        have hcard : unvisitedCard g (v ++ added) + added.length = unvisitedCard g v :=
          unvisitedCard_append_list g added v hndA
            (fun a ha => ⟨haddedValid a ha, (hpropsA a ha).2.1⟩)
        have hmu' : unvisitedCard g EN.1 + EN.2.length < fuel := by
          rw [hv', hq']
          simp only [List.length_append, List.length_cons] at hmu ⊢
          omega
        have hqv' : ∀ c ∈ EN.2, c ∈ EN.1 := by
          rw [hv', hq']
          intro c hc
          rcases List.mem_append.mp hc with hc | hc
          · exact List.mem_append.mpr (Or.inl (hqv c (by simp [hc])))
          · exact List.mem_append.mpr (Or.inr hc)
        have hev' : ∀ c ∈ e ++ [current], c ∈ EN.1 := by
          rw [hv']
          intro c hc
          rcases List.mem_append.mp hc with hc | hc
          · exact List.mem_append.mpr (Or.inl (hev c hc))
          · have hcc : c = current := by simpa using hc
            exact List.mem_append.mpr (Or.inl (hcc ▸ hcv))
        have hbv' : ∀ c ∈ b, c ∈ EN.1 := by
          rw [hv']
          intro c hc
          exact List.mem_append.mpr (Or.inl (hbv c hc))
        have hperm : (e ++ b ++ (current :: rest)).Perm ((e ++ [current]) ++ b ++ rest) := by
          have h1 : e ++ b ++ (current :: rest) = e ++ (b ++ current :: rest) := by simp
          have h2 : (e ++ [current]) ++ b ++ rest = e ++ (current :: (b ++ rest)) := by simp
          rw [h1, h2]
          exact List.Perm.append_left e List.perm_middle
        have hndX : ((e ++ [current]) ++ b ++ rest).Nodup := (hperm.nodup_iff).mp hnd
        have hndNew : ((e ++ [current]) ++ b ++ (rest ++ added)).Nodup := by
          have hassoc : (e ++ [current]) ++ b ++ (rest ++ added) =
              ((e ++ [current]) ++ b ++ rest) ++ added := by
            simp [List.append_assoc]
          rw [hassoc, List.nodup_append]
          refine ⟨hndX, hndA, ?_⟩
          intro a haX haA
          have haV : a ∈ v := by
            rcases List.mem_append.mp haX with h | h
            · rcases List.mem_append.mp h with h | h
              · rcases List.mem_append.mp h with h | h
                · exact hev a h
                · have hac : a = current := by simpa using h
                  exact hac ▸ hcv
              · exact hbv a h
            · exact hqv a (by simp [h])
          exact (hpropsA a haA).2.1 haV
        have he' : ∀ c ∈ e ++ [current], g.adjacentMines c.x c.y = 0 := by
          intro c hc
          rcases List.mem_append.mp hc with h | h
          · exact he c h
          · have hcc : c = current := by simpa using h
            rw [hcc]
            exact hadj
        have hP' : ∀ c ∈ (e ++ [current]) ++ b ++ EN.2, c = start ∨
            (g.isValidCoordinate c.x c.y = true ∧ g.isMine c.x c.y = false ∧
              g.isRevealed c.x c.y = false) := by
          rw [hq']
          intro c hc
          rcases List.mem_append.mp hc with h | hC
          · exact hP c (hperm.mem_iff.mpr (List.mem_append.mpr (Or.inl h)))
          · rcases List.mem_append.mp hC with h | hA
            · exact hP c (hperm.mem_iff.mpr (List.mem_append.mpr (Or.inr h)))
            · right
              exact ⟨haddedValid c hA, (hpropsA c hA).2.2.2, (hpropsA c hA).2.2.1⟩
        obtain ⟨eb, heq, hnd2, he2, hb2, hP2⟩ :=
          ih EN.1 EN.2 (e ++ [current]) b hmu' hqv' hev' hbv'
            (by rw [hq']; exact hndNew) he' hb hP'
        refine ⟨eb, ?_, hnd2, he2, hb2, hP2⟩
        rw [bfsLoop_cons, if_pos hadj]
        exact heq
      · have hmu' : unvisitedCard g v + rest.length < fuel := by
          simp only [List.length_cons] at hmu
          omega
        have hbv' : ∀ c ∈ b ++ [current], c ∈ v := by
          intro c hc
          rcases List.mem_append.mp hc with h | h
          · exact hbv c h
          · have hcc : c = current := by simpa using h
            exact hcc ▸ hcv
        have hassoc : e ++ (b ++ [current]) ++ rest = e ++ b ++ (current :: rest) := by
          simp
        have hnd' : (e ++ (b ++ [current]) ++ rest).Nodup := by
          rw [hassoc]
          exact hnd
        have hb' : ∀ c ∈ b ++ [current], g.adjacentMines c.x c.y ≠ 0 := by
          intro c hc
          rcases List.mem_append.mp hc with h | h
          · exact hb c h
          · have hcc : c = current := by simpa using h
            rw [hcc]
            exact hadj
        have hP' : ∀ c ∈ e ++ (b ++ [current]) ++ rest, c = start ∨
            (g.isValidCoordinate c.x c.y = true ∧ g.isMine c.x c.y = false ∧
              g.isRevealed c.x c.y = false) := by
          rw [hassoc]
          exact hP
        obtain ⟨eb, heq, hnd2, he2, hb2, hP2⟩ :=
          ih v rest e (b ++ [current]) hmu' (fun c hc => hqv c (by simp [hc]))
            hev hbv' hnd' he hb' hP'
        refine ⟨eb, ?_, hnd2, he2, hb2, hP2⟩
        rw [bfsLoop_cons, if_neg hadj]
        exact heq

/-- C1: on any grid the flood-fill terminates within the explicit fuel bound
(the loop measure, unvisited valid cells plus queue length, drops by one per
iteration), never classifies a coordinate twice (the interior and boundary
lists are together duplicate-free, hence disjoint), every interior entry has
adjacency zero, every boundary entry has positive adjacency, and everything
ever enqueued beyond the start is in-bounds, not a mine, not already
revealed, and not previously visited. -/
theorem bfsPropagation_spec (g : GameState) (start : Coordinate)
    (_hstart : g.adjacentMines start.x start.y = 0) :
    bfsLoop g (bfsFuel g) [start] [start] [] [] = some (bfsPropagation g start) ∧
    (bfsPropagation g start).1.Nodup ∧ (bfsPropagation g start).2.Nodup ∧
    (∀ c ∈ (bfsPropagation g start).1, c ∉ (bfsPropagation g start).2) ∧
    (∀ c ∈ (bfsPropagation g start).1, g.adjacentMines c.x c.y = 0) ∧
    (∀ c ∈ (bfsPropagation g start).2, 0 < g.adjacentMines c.x c.y) ∧
    (∀ c ∈ (bfsPropagation g start).1 ++ (bfsPropagation g start).2, c = start ∨
      (g.isValidCoordinate c.x c.y = true ∧ g.isMine c.x c.y = false ∧
        g.isRevealed c.x c.y = false)) := by
  have hmu0 : unvisitedCard g [start] + ([start] : List Coordinate).length < bfsFuel g := by
    have h1 : unvisitedCard g [start] ≤ (gridCoords g.size).toFinset.card :=
      Finset.card_le_card (Finset.sdiff_subset)
    have h2 : (gridCoords g.size).toFinset.card ≤ (gridCoords g.size).length :=
      (gridCoords g.size).toFinset_card_le
    unfold bfsFuel
    simp only [List.length_cons, List.length_nil]
    omega
  obtain ⟨eb, heq, hnd, he, hb, hP⟩ :=
    bfsLoop_spec g start (bfsFuel g) [start] [start] [] [] hmu0
      (by simp) (by simp) (by simp) (by simp) (by simp) (by simp)
      (by intro c hc; left; simpa using hc)
  have hbfs : bfsPropagation g start = eb := by
    unfold bfsPropagation
    rw [heq]
    rfl
  rw [hbfs]
  have hsplit := List.nodup_append.mp hnd
  refine ⟨heq, hsplit.1, hsplit.2.1, hsplit.2.2, he, ?_, hP⟩
  intro c hc
  exact Nat.pos_of_ne_zero (hb c hc)

/-- Witness for C1 on the empty 2 x 2 grid starting at the origin. -/
theorem bfsPropagation_spec_witness :
    (newGameState 2 0).adjacentMines 0 0 = 0 ∧
    bfsLoop (newGameState 2 0) (bfsFuel (newGameState 2 0))
      [Coordinate.mk 0 0] [Coordinate.mk 0 0] [] [] =
      some (bfsPropagation (newGameState 2 0) (Coordinate.mk 0 0)) ∧
    (bfsPropagation (newGameState 2 0) (Coordinate.mk 0 0)).1.Nodup := by
  have h0 : (newGameState 2 0).adjacentMines 0 0 = 0 := by decide
  have h := bfsPropagation_spec (newGameState 2 0) (Coordinate.mk 0 0) h0
  exact ⟨h0, h.1, h.2.1⟩

/-! C10: out-of-bounds coordinates. -/

theorem isMine_eq_and (g : GameState) (x y : Int) :
    g.isMine x y = (g.isValidCoordinate x y && mget g.mineMap x y) := by
  unfold GameState.isMine
  by_cases h : g.isValidCoordinate x y = true
  · rw [if_pos h, h, Bool.true_and]
  · have h' : g.isValidCoordinate x y = false := by simpa using h
    rw [if_neg h, h', Bool.false_and]

theorem adjacentMines_inbounds (g : GameState) (x y : Int) :
    g.adjacentMines x y =
      (neighborOffsets.filter (fun d => g.isValidCoordinate (x + d.1) (y + d.2) &&
        mget g.mineMap (x + d.1) (y + d.2))).length := by
  unfold GameState.adjacentMines
  congr 1
  apply List.filter_congr
  intro d _
  exact isMine_eq_and g (x + d.1) (y + d.2)

theorem adjacentMines_of_no_neighbors (g : GameState) (x y : Int)
    (h : g.getNeighbors x y = []) : g.adjacentMines x y = 0 := by
  have hfil : neighborOffsets.filter
      (fun d => g.isValidCoordinate (x + d.1) (y + d.2)) = [] := by
    unfold GameState.getNeighbors at h
    exact List.map_eq_nil_iff.mp h
  rw [adjacentMines_inbounds]
  have hsub : ∀ d ∈ neighborOffsets,
      (g.isValidCoordinate (x + d.1) (y + d.2) && mget g.mineMap (x + d.1) (y + d.2)) = true →
      (g.isValidCoordinate (x + d.1) (y + d.2)) = true := by
    intro d _ hd
    simp only [Bool.and_eq_true] at hd
    exact hd.1
  have : neighborOffsets.filter (fun d => g.isValidCoordinate (x + d.1) (y + d.2) &&
      mget g.mineMap (x + d.1) (y + d.2)) = [] := by
    rw [List.filter_eq_nil_iff]
    intro d hd hcontra
    have hv := hsub d hd hcontra
    have : d ∈ neighborOffsets.filter
        (fun dd => g.isValidCoordinate (x + dd.1) (y + dd.2)) :=
      List.mem_filter.mpr ⟨hd, hv⟩
    rw [hfil] at this
    cases this
  rw [this]
  rfl

theorem reveal_mineMap (g : GameState) (x y : Int) :
    (g.reveal x y).1.mineMap = g.mineMap := by
  unfold GameState.reveal
  split <;> rfl

theorem revealAll_mineMap (l : List Coordinate) : ∀ g : GameState,
    (revealAll l g).mineMap = g.mineMap := by
  induction l with
  | nil => intro g; rfl
  | cons a as ih =>
    intro g
    unfold revealAll at ih ⊢
    rw [List.foldl_cons, ih]
    exact reveal_mineMap g a.x a.y

theorem processBoundary_mineMap (l : List Coordinate) : ∀ p : GameState × World,
    (processBoundary l p).1.mineMap = p.1.mineMap := by
  induction l with
  | nil => intro p; rfl
  | cons a as ih =>
    intro p
    unfold processBoundary at ih ⊢
    rw [List.foldl_cons, ih]
    show ((p.1.reveal a.x a.y).1.addHintCell a.x a.y).mineMap = p.1.mineMap
    show (p.1.reveal a.x a.y).1.mineMap = p.1.mineMap
    exact reveal_mineMap p.1 a.x a.y

theorem createPod_ok (w : World) (name : String) (w' : World)
    (h : createPod w name = .ok w') :
    w'.store = w.store ∧ w'.pods = w.pods ++ [name] := by
  unfold createPod at h
  by_cases hmem : name ∈ w.pods
  · rw [if_pos hmem] at h
    cases h
  · rw [if_neg hmem] at h
    have := Except.ok.inj h
    rw [← this]
    exact ⟨rfl, rfl⟩

theorem handleVictory_store (w : World) (g : GameState) (w' : World)
    (h : handleVictory w g = .ok w') : w'.store = some g.setWon := by
  unfold handleVictory at h
  rw [(createPod_ok _ _ _ h).1]
  rfl

theorem handleMineHit_store (delOk : String → Bool) (w : World) (g : GameState)
    (c : Coordinate) (w' : World) (h : handleMineHit delOk w g c = .ok w') :
    w'.store = some ((g.reveal c.x c.y).1.setLost) := by
  unfold handleMineHit at h
  rw [(createPod_ok _ _ _ h).1]
  rfl

theorem handleHintCell_store (w : World) (g : GameState) (c : Coordinate) (w' : World)
    (h : handleHintCell w g c = .ok w') :
    w'.store = some (((g.reveal c.x c.y).1.addHintCell c.x c.y).setWon) ∨
    w'.store = some ((g.reveal c.x c.y).1.addHintCell c.x c.y) := by
  unfold handleHintCell at h
  cases hcp : createPod w c.hintPodName with
  | error e =>
    simp only [hcp] at h
    exact Except.noConfusion h
  | ok w1 =>
    simp only [hcp] at h
    by_cases hvic : (((g.reveal c.x c.y).1.addHintCell c.x c.y).checkVictory) = true
    · rw [if_pos hvic] at h
      exact Or.inl (handleVictory_store _ _ _ h)
    · rw [if_neg hvic] at h
      have := Except.ok.inj h
      rw [← this]
      exact Or.inr rfl

theorem handleEmptyCell_store (w : World) (g : GameState) (c : Coordinate) (w' : World)
    (h : handleEmptyCell w g c = .ok w') :
    w'.store = some ((processBoundary (bfsPropagation g c).2
        (revealAll (bfsPropagation g c).1 g, deleteAll (bfsPropagation g c).1 w)).1.setWon) ∨
    w'.store = some ((processBoundary (bfsPropagation g c).2
        (revealAll (bfsPropagation g c).1 g, deleteAll (bfsPropagation g c).1 w)).1) := by
  simp only [handleEmptyCell] at h
  set gw := processBoundary (bfsPropagation g c).2
    (revealAll (bfsPropagation g c).1 g, deleteAll (bfsPropagation g c).1 w) with hgw
  by_cases hvic : gw.1.checkVictory = true
  · rw [if_pos hvic] at h
    exact Or.inl (handleVictory_store _ _ _ h)
  · rw [if_neg hvic] at h
    have := Except.ok.inj h
    rw [← this]
    exact Or.inr rfl

theorem handlePodDeletion_mineMap (delOk : String → Bool) (w : World) (c : Coordinate)
    (g : GameState) (w' : World) (hw : w.store = some g)
    (h : handlePodDeletion delOk w c = .ok w') :
    ∃ g', w'.store = some g' ∧ g'.mineMap = g.mineMap := by
  unfold handlePodDeletion at h
  simp only [hw] at h
  by_cases hst : g.status ≠ GameStatus.playing
  · rw [if_pos hst] at h
    have := Except.ok.inj h
    exact ⟨g, by rw [← this]; exact hw, rfl⟩
  · rw [if_neg hst] at h
    by_cases hrev : g.isRevealed c.x c.y = true
    · rw [if_pos hrev] at h
      have := Except.ok.inj h
      exact ⟨g, by rw [← this]; exact hw, rfl⟩
    · rw [if_neg hrev] at h
      by_cases hmine : g.isMine c.x c.y = true
      · rw [if_pos hmine] at h
        refine ⟨(g.reveal c.x c.y).1.setLost, handleMineHit_store _ _ _ _ _ h, ?_⟩
        show (g.reveal c.x c.y).1.mineMap = g.mineMap
        exact reveal_mineMap g c.x c.y
      · rw [if_neg hmine] at h
        by_cases hadj : 0 < g.adjacentMines c.x c.y
        · rw [if_pos hadj] at h
          rcases handleHintCell_store _ _ _ _ h with hs | hs
          · refine ⟨_, hs, ?_⟩
            show (g.reveal c.x c.y).1.mineMap = g.mineMap
            exact reveal_mineMap g c.x c.y
          · refine ⟨_, hs, ?_⟩
            show (g.reveal c.x c.y).1.mineMap = g.mineMap
            exact reveal_mineMap g c.x c.y
        · rw [if_neg hadj] at h
          rcases handleEmptyCell_store _ _ _ _ h with hs | hs
          · refine ⟨_, hs, ?_⟩
            show (processBoundary _ _).1.mineMap = g.mineMap
            rw [processBoundary_mineMap]
            exact revealAll_mineMap _ g
          · refine ⟨_, hs, ?_⟩
            rw [processBoundary_mineMap]
            exact revealAll_mineMap _ g

theorem bfsPropagation_isolated (g : GameState) (c : Coordinate)
    (hadj : g.adjacentMines c.x c.y = 0) (hnb : g.getNeighbors c.x c.y = []) :
    bfsPropagation g c = ([c], []) := by
  unfold bfsPropagation bfsFuel
  rw [show (gridCoords g.size).length + 2 = ((gridCoords g.size).length + 1) + 1 from rfl]
  rw [bfsLoop_cons, if_pos hadj, hnb]
  show (bfsLoop g ((gridCoords g.size).length + 1)
    (enqueueNeighbors g [] [c] []).1 (enqueueNeighbors g [] [c] []).2 ([] ++ [c]) []).getD ([], []) = ([c], [])
  rw [show enqueueNeighbors g ([] : List Coordinate) [c] [] = ([c], []) from rfl]
  rw [show ([] ++ [c] : List Coordinate) = [c] from rfl]
  rw [bfsLoop_nil]
  rfl

theorem reveal_invalid (g : GameState) (x y : Int)
    (h : g.isValidCoordinate x y = false) : g.reveal x y = (g, false) := by
  rcases reveal_fields g x y with ⟨he, -⟩ | ⟨hv, -, -, -, -, -, -, -, -, -, -, -, -⟩
  · exact he
  · rw [h] at hv
    cases hv

theorem setMine_invalid (g : GameState) (x y : Int)
    (h : g.isValidCoordinate x y = false) : g.setMine x y = (g, false) := by
  rcases setMine_fields g x y with ⟨-, he⟩ | ⟨hv, -, -⟩ |
    ⟨hv, -, -, -, -, -, -, -, -, -, -, -, -⟩
  · exact he
  · rw [h] at hv
    cases hv
  · rw [h] at hv
    cases hv

theorem handlePodDeletion_oob_isolated (delOk : String → Bool) (w : World)
    (c : Coordinate) (g : GameState) (w' : World) (hw : w.store = some g)
    (hval : g.isValidCoordinate c.x c.y = false) (hnb : g.getNeighbors c.x c.y = [])
    (h : handlePodDeletion delOk w c = .ok w') :
    ∃ g', w'.store = some g' ∧ g'.revealed = g.revealed ∧ g'.mineMap = g.mineMap := by
  unfold handlePodDeletion at h
  simp only [hw] at h
  by_cases hst : g.status ≠ GameStatus.playing
  · rw [if_pos hst] at h
    exact ⟨g, by rw [← Except.ok.inj h]; exact hw, rfl, rfl⟩
  · rw [if_neg hst] at h
    have hrev : g.isRevealed c.x c.y = false := by
      rw [isRevealed_def, if_neg (by simp [hval])]
    have hmine : g.isMine c.x c.y = false := by
      rw [isMine_def, if_neg (by simp [hval])]
    rw [if_neg (by simp [hrev])] at h
    rw [if_neg (by simp [hmine])] at h
    have hadj : g.adjacentMines c.x c.y = 0 :=
      adjacentMines_of_no_neighbors g c.x c.y hnb
    rw [if_neg (by omega)] at h
    have hbfs : bfsPropagation g c = ([c], []) := bfsPropagation_isolated g c hadj hnb
    have hra : revealAll [c] g = g := by
      unfold revealAll
      rw [List.foldl_cons, List.foldl_nil, reveal_invalid g c.x c.y hval]
    rcases handleEmptyCell_store _ _ _ _ h with hs | hs <;>
      rw [hbfs] at hs <;>
      simp only [processBoundary, List.foldl_nil, hra] at hs
    · exact ⟨g.setWon, hs, rfl, rfl⟩
    · exact ⟨g, hs, rfl, rfl⟩

/-! C10 counterexample and amended theorem. -/

/-- C10 counterexample: on a 3 x 3 grid with one mine at (0, 0), a deletion
event for the out-of-bounds coordinate (3, 3) ("pod-3-3") is classified as an
empty cell (its adjacency is 0) and its flood-fill enters the real grid
through the diagonal neighbor (2, 2): the revealed matrix changes, refuting
the claim that any out-of-bounds deletion leaves it untouched. -/
theorem oob_reconcile_reveals_cex :
    ((newGameState 3 0).setMine 0 0).1.isValidCoordinate 3 3 = false ∧
    ((newGameState 3 0).setMine 0 0).1.isRevealed 2 2 = false ∧
    (match handlePodDeletion (fun _ => true)
        ⟨some ((newGameState 3 0).setMine 0 0).1, []⟩ ⟨3, 3⟩ with
      | .ok w' =>
        match w'.store with
        | some s => s.isRevealed 2 2
        | none => false
      | .error _ => false) = true := by
  refine ⟨by decide, by decide, by decide⟩

/-- C10 amended: out of bounds, IsMine, IsRevealed, Reveal and SetMine are
no-ops returning false; GetNeighbors returns only in-bounds coordinates and
AdjacentMines counts only in-bounds mine entries (no out-of-range indexing,
hence no panic in the guarded source); the reconciler never changes the mine
matrix for any deletion event; and for an out-of-bounds coordinate with no
in-bounds neighbor (such as pod-99-99 on a 3 x 3 grid) the revealed matrix is
also unchanged -- but an out-of-bounds coordinate diagonally adjacent to the
grid can trigger a flood-fill that reveals real cells (see the
counterexample). -/
theorem oob_safety :
    (∀ g : GameState, ∀ x y : Int, g.isValidCoordinate x y = false →
      g.isMine x y = false ∧ g.isRevealed x y = false ∧
      g.reveal x y = (g, false) ∧ g.setMine x y = (g, false)) ∧
    (∀ g : GameState, ∀ x y : Int, ∀ c ∈ g.getNeighbors x y,
      g.isValidCoordinate c.x c.y = true) ∧
    (∀ g : GameState, ∀ x y : Int, g.adjacentMines x y =
      (neighborOffsets.filter (fun d => g.isValidCoordinate (x + d.1) (y + d.2) &&
        mget g.mineMap (x + d.1) (y + d.2))).length) ∧
    (∀ delOk w c g w', w.store = some g → handlePodDeletion delOk w c = .ok w' →
      ∃ g', w'.store = some g' ∧ g'.mineMap = g.mineMap) ∧
    (∀ delOk w c g w', w.store = some g → g.isValidCoordinate c.x c.y = false →
      g.getNeighbors c.x c.y = [] → handlePodDeletion delOk w c = .ok w' →
      ∃ g', w'.store = some g' ∧ g'.revealed = g.revealed ∧
        g'.mineMap = g.mineMap) := by
  refine ⟨?_, getNeighbors_valid, adjacentMines_inbounds,
    handlePodDeletion_mineMap, handlePodDeletion_oob_isolated⟩
  intro g x y h
  refine ⟨?_, ?_, reveal_invalid g x y h, setMine_invalid g x y h⟩
  · rw [isMine_def, if_neg (by simp [h])]
  · rw [isRevealed_def, if_neg (by simp [h])]

/-- Witness for C10: the far-out coordinate (99, 99) on an empty 3 x 3 grid. -/
theorem oob_safety_witness :
    (newGameState 3 0).reveal 99 99 = (newGameState 3 0, false) ∧
    (∃ g', (World.mk (some (newGameState 3 0)) []).store = some g' ∧
      g'.revealed = (newGameState 3 0).revealed ∧
      g'.mineMap = (newGameState 3 0).mineMap) := by
  have h1 : (newGameState 3 0).isValidCoordinate 99 99 = false := by decide
  have h3 : (newGameState 3 0).getNeighbors 99 99 = [] := by decide
  have h4 : handlePodDeletion (fun _ => true) ⟨some (newGameState 3 0), []⟩ ⟨99, 99⟩ =
      .ok ⟨some (newGameState 3 0), []⟩ := by rfl
  exact ⟨(oob_safety.1 (newGameState 3 0) 99 99 h1).2.2.1,
    oob_safety.2.2.2.2 (fun _ => true) ⟨some (newGameState 3 0), []⟩ ⟨99, 99⟩
      (newGameState 3 0) ⟨some (newGameState 3 0), []⟩ rfl h1 h3 h4⟩

/-! C3: the mine-hit handler. -/

theorem reveal_marks_revealed (g : GameState) (x y : Int) (hwf : WFMatrices g)
    (hv : g.isValidCoordinate x y = true) (hr : g.isRevealed x y = false) :
    (g.reveal x y).1.isRevealed x y = true := by
  have hmg : mget g.revealed x y = false := by
    rw [isRevealed_def, if_pos hv] at hr
    exact hr
  rcases reveal_fields g x y with ⟨-, hbad⟩ |
    ⟨-, -, -, hsz, -, -, -, -, hrv, -, -, -, -⟩
  · rcases hbad with hbad | hbad
    · rw [hv] at hbad
      cases hbad
    · rw [hmg] at hbad
      cases hbad
  · have hb := valid_bounds g x y hv hwf
    rw [isRevealed_def, isValidCoordinate_congr _ g hsz, if_pos hv, hrv]
    exact mget_mset_self g.revealed x y true hb.2.2.1 hb.2.2.2

/-- C3 counterexample: hitting the mine materializes a terminal marker pod
named "explosion", not "defeat" as the claim states. -/
theorem mine_hit_defeat_marker_cex :
    (match handlePodDeletion (fun _ => true)
        ⟨some ((newGameState 2 0).setMine 0 0).1, ["pod-0-0"]⟩ ⟨0, 0⟩ with
      | .ok w' => decide ("explosion" ∈ w'.pods) && !(decide ("defeat" ∈ w'.pods))
      | .error _ => false) = true := by
  decide

/-- C3 amended: on an unrevealed mine coordinate of a Playing game, the
reconciler marks it revealed, sets status Lost, records endedAt, persists
that state, deletes every pod matching the grid or hint pattern best-effort
(per-pod failures skip only that pod), and finally creates exactly one
terminal marker pod -- named "explosion", not "defeat"; when every deletion
succeeds, no grid or hint pod remains. -/
theorem handleMineHit_spec (delOk : String → Bool) (w : World) (c : Coordinate)
    (g : GameState) (hw : w.store = some g) (hwf : WFMatrices g)
    (hst : g.status = .playing) (hmine : g.isMine c.x c.y = true)
    (hrev : g.isRevealed c.x c.y = false) (hexp : "explosion" ∉ w.pods) :
    handlePodDeletion delOk w c =
      .ok ⟨some ((g.reveal c.x c.y).1.setLost),
        (w.pods.filter (fun n => !((isPodName n || isHintPodName n) && delOk n))) ++
          ["explosion"]⟩ ∧
    ((g.reveal c.x c.y).1.setLost).status = .lost ∧
    ((g.reveal c.x c.y).1.setLost).endedAtSet = true ∧
    ((g.reveal c.x c.y).1.setLost).isRevealed c.x c.y = true ∧
    ((∀ n, delOk n = true) →
      ∀ m ∈ (w.pods.filter (fun n => !((isPodName n || isHintPodName n) && delOk n))) ++
        ["explosion"], isPodName m = false ∧ isHintPodName m = false) ∧
    ((w.pods.filter (fun n => !((isPodName n || isHintPodName n) && delOk n))) ++
      ["explosion"]).count "explosion" = 1 := by
  have hv : g.isValidCoordinate c.x c.y = true := by
    by_contra hc
    rw [isMine_def, if_neg hc] at hmine
    cases hmine
  have hnotinf : "explosion" ∉
      w.pods.filter (fun n => !((isPodName n || isHintPodName n) && delOk n)) := by
    intro hc
    exact hexp (List.mem_filter.mp hc).1
  refine ⟨?_, rfl, rfl, ?_, ?_, ?_⟩
  · unfold handlePodDeletion
    simp only [hw]
    rw [if_neg (by simp [hst]), if_neg (by simp [hrev]), if_pos hmine]
    show createPod (wipeGamePods delOk (saveState w ((g.reveal c.x c.y).1.setLost)))
      "explosion" = _
    unfold createPod
    have hmem : "explosion" ∉
        (wipeGamePods delOk (saveState w ((g.reveal c.x c.y).1.setLost))).pods := by
      intro hc
      simp only [wipeGamePods, saveState] at hc
      exact hexp (List.mem_filter.mp hc).1
    rw [if_neg hmem]
    simp only [wipeGamePods, saveState]
  · exact reveal_marks_revealed g c.x c.y hwf hv hrev
  · intro hall m hm
    rcases List.mem_append.mp hm with hm | hm
    · have hf := List.mem_filter.mp hm
      have hpred := hf.2
      simp only [hall m, Bool.and_true, Bool.not_eq_true', Bool.or_eq_false_iff] at hpred
      exact hpred
    · have hme : m = "explosion" := by simpa using hm
      rw [hme]
      exact ⟨by decide, by decide⟩
  · rw [List.count_append, List.count_eq_zero.mpr hnotinf]
    rfl

/-- Witness for C3: a 2 x 2 game with the mine at (0, 0), one surviving
foreign pod. -/
theorem handleMineHit_spec_witness :
    handlePodDeletion (fun _ => true)
      ⟨some ((newGameState 2 0).setMine 0 0).1, ["pod-0-0", "other"]⟩ ⟨0, 0⟩ =
      .ok ⟨some ((((newGameState 2 0).setMine 0 0).1.reveal 0 0).1.setLost),
        ((["pod-0-0", "other"] : List String).filter
          (fun n => !((isPodName n || isHintPodName n) && (fun _ => true) n))) ++
          ["explosion"]⟩ ∧
    ((((newGameState 2 0).setMine 0 0).1.reveal 0 0).1.setLost).status = .lost := by
  have hwf : WFMatrices ((newGameState 2 0).setMine 0 0).1 := by
    unfold WFMatrices
    exact ⟨by decide, by decide, by decide, by decide⟩
  have h := handleMineHit_spec (fun _ => true)
    ⟨some ((newGameState 2 0).setMine 0 0).1, ["pod-0-0", "other"]⟩ ⟨0, 0⟩
    ((newGameState 2 0).setMine 0 0).1 rfl hwf (by decide) (by decide) (by decide)
    (by decide)
  exact ⟨h.1, h.2.1⟩

/-! C9: SpawnGrid batching, retry and error reporting. -/

theorem gridCoords_length (s : Int) :
    (gridCoords s).length = s.toNat * s.toNat := by
  unfold gridCoords
  rw [List.length_flatMap]
  have hmem : ∀ b ∈ List.map (List.length ∘ fun X =>
      (List.range s.toNat).map (fun Y => natPairCoord X Y)) (List.range s.toNat),
      b = s.toNat := by
    intro b hb
    simp only [List.mem_map, Function.comp] at hb
    obtain ⟨a, -, rfl⟩ := hb
    simp
  rw [List.eq_replicate_length.mpr hmem, List.sum_replicate, smul_eq_mul,
    List.length_map, List.length_range]

theorem chunkAux_flatten (bs : Nat) (hbs : 1 ≤ bs) :
    ∀ (fuel : Nat) (l : List Coordinate), l.length ≤ fuel →
      (chunkAux bs fuel l).flatten = l := by
  intro fuel
  induction fuel with
  | zero =>
    intro l hl
    have : l = [] := List.eq_nil_of_length_eq_zero (Nat.le_zero.mp hl)
    rw [this]
    rfl
  | succ fuel ih =>
    intro l hl
    cases l with
    | nil => rfl
    | cons a l =>
      show ((a :: l).take bs :: chunkAux bs fuel ((a :: l).drop bs)).flatten = a :: l
      rw [List.flatten_cons, ih ((a :: l).drop bs)
        (by simp only [List.length_drop, List.length_cons] at *; omega),
        List.take_append_drop]

theorem batches_flatten (bs : Nat) (hbs : 1 ≤ bs) (l : List Coordinate) :
    (batches bs l).flatten = l := by
  unfold batches
  exact chunkAux_flatten bs hbs l.length l (le_refl _)

theorem spawnFoldEq (s : GridSpawner) (env : Coordinate → Nat → CreateOutcome)
    (hbs : 1 ≤ s.batchSize) (l : List Coordinate) (init : SpawnResult) :
    (batches s.batchSize l).foldl
      (fun acc batch => batch.foldl (processCoord s env) acc) init =
      l.foldl (processCoord s env) init := by
  conv_rhs => rw [← batches_flatten s.batchSize hbs l]
  exact (List.foldl_flatten (processCoord s env) init (batches s.batchSize l)).symm

theorem createAttempts_iff (env : Coordinate → Nat → CreateOutcome) (c : Coordinate) :
    ∀ (n a : Nat), createAttempts env c n a = true ↔
      ∃ k, k < n ∧ env c (a + k) ≠ CreateOutcome.failed := by
  intro n
  induction n with
  | zero =>
    intro a
    simp [createAttempts]
  | succ n ih =>
    intro a
    cases henv : env c a with
    | failed =>
      have hstep : createAttempts env c (n + 1) a = createAttempts env c n (a + 1) := by
        simp only [createAttempts, henv]
      rw [hstep, ih (a + 1)]
      constructor
      · rintro ⟨k, hk, hne⟩
        refine ⟨k + 1, by omega, ?_⟩
        rw [show a + (k + 1) = a + 1 + k by omega]
        exact hne
      · rintro ⟨k, hk, hne⟩
        cases k with
        | zero =>
          rw [Nat.add_zero, henv] at hne
          exact absurd rfl hne
        | succ k =>
          refine ⟨k, by omega, ?_⟩
          rw [show a + 1 + k = a + (k + 1) by omega]
          exact hne
    | created =>
      have hstep : createAttempts env c (n + 1) a = true := by
        simp only [createAttempts, henv]
      rw [hstep]
      constructor
      · intro _
        exact ⟨0, by omega, by
          rw [Nat.add_zero, henv]
          exact fun h => CreateOutcome.noConfusion h⟩
      · intro _
        rfl
    | alreadyExists =>
      have hstep : createAttempts env c (n + 1) a = true := by
        simp only [createAttempts, henv]
      rw [hstep]
      constructor
      · intro _
        exact ⟨0, by omega, by
          rw [Nat.add_zero, henv]
          exact fun h => CreateOutcome.noConfusion h⟩
      · intro _
        rfl

theorem spawnFoldSpec (s : GridSpawner) (env : Coordinate → Nat → CreateOutcome) :
    ∀ (coords : List Coordinate) (r : SpawnResult),
    (coords.foldl (processCoord s env) r).totalPods = r.totalPods ∧
    (coords.foldl (processCoord s env) r).createdPods =
      r.createdPods +
        ((coords.filter (fun c => createPodWithRetry s env c)).length : Int) ∧
    (coords.foldl (processCoord s env) r).failedPods =
      r.failedPods +
        ((coords.filter (fun c => !(createPodWithRetry s env c))).length : Int) ∧
    (coords.foldl (processCoord s env) r).failedCoords =
      r.failedCoords ++ coords.filter (fun c => !(createPodWithRetry s env c)) := by
  intro coords
  induction coords with
  | nil =>
    intro r
    exact ⟨rfl, by simp, by simp, by simp⟩
  | cons c cs ih =>
    intro r
    rw [List.foldl_cons]
    obtain ⟨h1, h2, h3, h4⟩ := ih (processCoord s env r c)
    by_cases hc : createPodWithRetry s env c = true
    · have hpc : processCoord s env r c = { r with createdPods := r.createdPods + 1 } := by
        unfold processCoord
        rw [if_pos hc]
      rw [hpc] at h1 h2 h3 h4 ⊢
      refine ⟨h1, ?_, ?_, ?_⟩
      · rw [h2]
        dsimp only
        simp only [List.filter_cons, hc, if_true, List.length_cons]
        push_cast
        ring
      · rw [h3]
        dsimp only
        simp [List.filter_cons, hc]
      · rw [h4]
        dsimp only
        simp [List.filter_cons, hc]
    · have hcf : createPodWithRetry s env c = false := Bool.eq_false_iff.mpr hc
      have hpc : processCoord s env r c =
          { r with failedPods := r.failedPods + 1,
                   failedCoords := r.failedCoords ++ [c] } := by
        unfold processCoord
        rw [if_neg hc]
      rw [hpc] at h1 h2 h3 h4 ⊢
      refine ⟨h1, ?_, ?_, ?_⟩
      · rw [h2]
        dsimp only
        simp [List.filter_cons, hcf]
      · rw [h3]
        dsimp only
        simp only [List.filter_cons, hcf, Bool.not_false, if_true, List.length_cons]
        push_cast
        ring
      · rw [h4]
        dsimp only
        simp [List.filter_cons, hcf]

/-- C9: SpawnGrid processes every one of the size x size coordinates in
batches; per-coordinate creation retries up to retryAttempts times and any
non-failure outcome (created or already-exists) counts as success; an
individual failure never aborts the rest (every coordinate is still
attempted, failures only accumulate in the result); the returned error flag
is set iff at least one coordinate permanently failed; and the result
records total, created and failed counts with created + failed = total. -/
theorem spawnGrid_spec (s : GridSpawner) (env : Coordinate → Nat → CreateOutcome)
    (state : GameState) (hbs : 1 ≤ s.batchSize) (hsize : 0 ≤ state.size) :
    (spawnGrid s env state).1.totalPods = state.size * state.size ∧
    (spawnGrid s env state).1.createdPods + (spawnGrid s env state).1.failedPods =
      state.size * state.size ∧
    ((spawnGrid s env state).2 = true ↔ 0 < (spawnGrid s env state).1.failedPods) ∧
    (spawnGrid s env state).1.failedCoords =
      (gridCoords state.size).filter (fun c => !(createPodWithRetry s env c)) ∧
    (∀ c : Coordinate, createPodWithRetry s env c = true ↔
      ∃ k, k < s.retryAttempts ∧ env c k ≠ CreateOutcome.failed) ∧
    (∀ c : Coordinate, 1 ≤ s.retryAttempts →
      env c 0 = CreateOutcome.alreadyExists → createPodWithRetry s env c = true) := by
  have hsg : spawnGrid s env state =
      ((gridCoords state.size).foldl (processCoord s env)
        { totalPods := state.size * state.size, createdPods := 0, failedPods := 0,
          failedCoords := [] },
       decide (0 < ((gridCoords state.size).foldl (processCoord s env)
        { totalPods := state.size * state.size, createdPods := 0, failedPods := 0,
          failedCoords := [] }).failedPods)) := by
    have hfold := spawnFoldEq s env hbs (gridCoords state.size)
      { totalPods := state.size * state.size, createdPods := 0, failedPods := 0,
        failedCoords := [] }
    simp only [spawnGrid]
    rw [hfold]
  obtain ⟨h1, h2, h3, h4⟩ := spawnFoldSpec s env (gridCoords state.size)
    { totalPods := state.size * state.size, createdPods := 0, failedPods := 0,
      failedCoords := [] }
  rw [hsg]
  have hc : ((state.size.toNat * state.size.toNat : Nat) : Int) =
      state.size * state.size := by
    push_cast
    rw [Int.toNat_of_nonneg hsize]
  have hpart :=
    List.length_eq_length_filter_add (fun c => createPodWithRetry s env c)
      (l := gridCoords state.size)
  rw [gridCoords_length state.size] at hpart
  have hpartZ :
      (((gridCoords state.size).filter (fun c => createPodWithRetry s env c)).length : Int) +
        (((gridCoords state.size).filter
          (fun c => !(createPodWithRetry s env c))).length : Int) =
      ((state.size.toNat * state.size.toNat : Nat) : Int) := by
    exact_mod_cast hpart.symm
  refine ⟨h1, ?_, ?_, h4, ?_, ?_⟩
  · rw [h2, h3, ← hc, ← hpartZ]
    ring
  · exact decide_eq_true_iff
  · intro c
    have h := createAttempts_iff env c s.retryAttempts 0
    simp only [Nat.zero_add] at h
    exact h
  · intro c hr henv
    unfold createPodWithRetry
    cases hr2 : s.retryAttempts with
    | zero =>
      rw [hr2] at hr
      exact absurd hr (by decide)
    | succ n =>
      have hstep : createAttempts env c (n + 1) 0 = true := by
        simp only [createAttempts, henv]
      exact hstep

/-- Witness for C9: a 3 x 3 grid with the default spawner settings and an
oracle answering already-exists everywhere. -/
theorem spawnGrid_spec_witness :
    1 ≤ (newGridSpawner 0 0).batchSize ∧ 0 ≤ (newGameState 3 0).size ∧
    (spawnGrid (newGridSpawner 0 0) (fun _ _ => CreateOutcome.alreadyExists)
        (newGameState 3 0)).1.createdPods +
      (spawnGrid (newGridSpawner 0 0) (fun _ _ => CreateOutcome.alreadyExists)
        (newGameState 3 0)).1.failedPods =
      (newGameState 3 0).size * (newGameState 3 0).size := by
  refine ⟨by decide, by decide, ?_⟩
  exact (spawnGrid_spec (newGridSpawner 0 0) (fun _ _ => CreateOutcome.alreadyExists)
    (newGameState 3 0) (by decide) (by decide)).2.1

end PodSweeper
